import Mathlib

/-!
Verification development for the PS-generate repository: a shallow embedding
of the backup-seed classification engine (`scripts/remove_backup_seeds.py`)
and the prescale-table regeneration path (`psutils/pstable.py`,
`ps-generate.py`), together with theorems about the embedded code.

Seed names are modelled as `List Char` (Python `str`); prescale values as
`Int`; Python `float` values arising from seed-name fragments (decimal
strings such as `90` or `1p5`) as `ℚ`.  Operations that can raise in Python
are modelled in `Except PyErr`.
-/

namespace PSGen

/-- Seed names and other Python strings, modelled as lists of characters. -/
abbrev Str := List Char

/-- Exception kinds that the modelled Python code can raise. -/
inductive PyErr where
  | typeError
  | runtimeError
  | indexError
  | valueError
  | keyError
  | attributeError
deriving DecidableEq, Repr

/-- Result triple of a criterion function:
`(is_backup_candidate, identified_signal_seed, criterion_name)`. -/
abbrev Verdict := Bool × Option Str × Option Str

/-- The all-negative verdict `(False, None, None)`. -/
def noVerdict : Verdict := (false, none, none)

/-! ## Python-style string helpers -/

/-- Python `s.lower()` restricted to ASCII letters (seed names are ASCII). -/
def lowerStr (s : Str) : Str :=
  s.map (fun c => if 'A' ≤ c ∧ c ≤ 'Z' then Char.ofNat (c.toNat + 32) else c)

/-- Python `s.startswith(p)`. -/
def startsWithS (s p : Str) : Bool := p.isPrefixOf s

/-- Python `p in s` (substring containment). -/
def containsS (s p : Str) : Bool :=
  match s with
  | [] => p.isEmpty
  | _ :: t => startsWithS s p || containsS t p

/-- Python `s.endswith(p)` for a single-character suffix. -/
def endsWithChar (s : Str) (c : Char) : Bool :=
  match s with
  | [] => false
  | [x] => x = c
  | _ :: t => endsWithChar t c

/-- Python `s[:-1]`. -/
def dropLastChar (s : Str) : Str := s.dropLast

/-- Fuel-driven core of `replaceAll`. -/
def replaceAllF (pat rep : Str) : Nat → Str → Str
  | 0, s => s
  | _ + 1, [] => []
  | fuel + 1, c :: t =>
    if startsWithS (c :: t) pat ∧ ¬ pat.isEmpty then
      rep ++ replaceAllF pat rep fuel ((c :: t).drop pat.length)
    else
      c :: replaceAllF pat rep fuel t

/-- Python `s.replace(pat, rep)` for a nonempty pattern (replaces all
non-overlapping occurrences, scanning left to right).  For an empty
pattern the string is returned unchanged; the modelled code never
replaces an empty pattern. -/
def replaceAll (s pat rep : Str) : Str := replaceAllF pat rep (s.length + 1) s

/-- Fuel-driven core of `replace1`. -/
def replace1F (pat rep : Str) : Nat → Str → Str
  | 0, s => s
  | _ + 1, [] => []
  | fuel + 1, c :: t =>
    if startsWithS (c :: t) pat ∧ ¬ pat.isEmpty then
      rep ++ (c :: t).drop pat.length
    else
      c :: replace1F pat rep fuel t

/-- Python `s.replace(pat, rep, 1)` (first occurrence only). -/
def replace1 (s pat rep : Str) : Str := replace1F pat rep (s.length + 1) s

/-- Fuel-driven split helper: accumulates the current fragment (reversed)
while scanning. -/
def splitGo (sep : Str) : Nat → Str → Str → List Str
  | 0, acc, s => [acc.reverse ++ s]
  | _ + 1, acc, [] => [acc.reverse]
  | fuel + 1, acc, c :: rest =>
    if startsWithS (c :: rest) sep ∧ ¬ sep.isEmpty then
      acc.reverse :: splitGo sep fuel [] (rest.drop (sep.length - 1))
    else
      splitGo sep fuel (c :: acc) rest

/-- Python `s.split(sep)` for a nonempty separator. -/
def splitOnSub (s sep : Str) : List Str := splitGo sep (s.length + 1) [] s

/-- Python `s.split(ch)[0]` for a character separator: the prefix before the
first occurrence. -/
def takeUntilChar (s : Str) (c : Char) : Str := s.takeWhile (fun x => x ≠ c)

/-! ## Decimal values

Python `float` values produced by `convert_to_float` are always nonnegative
decimals written with digits and at most one decimal point (seed-name
fragments such as `90` or `1p5`).  They are modelled exactly as
`num / 10 ^ exp`; comparisons are by cross multiplication, which agrees with
IEEE comparison on these small decimal literals. -/

structure Dec where
  num : Nat
  exp : Nat
deriving DecidableEq, Repr

/-- Exact `<` on decimal values. -/
def Dec.lt (a b : Dec) : Bool := a.num * 10 ^ b.exp < b.num * 10 ^ a.exp

/-- Exact `≤` on decimal values. -/
def Dec.le (a b : Dec) : Bool := a.num * 10 ^ b.exp ≤ b.num * 10 ^ a.exp

/-- Exact `0 <` test on a decimal value. -/
def Dec.pos (a : Dec) : Bool := 0 < a.num

/-- Signed decimal value `wnum / 10 ^ wexp`, used for mass-window widths. -/
structure WDec where
  wnum : Int
  wexp : Nat
deriving DecidableEq, Repr

/-- Width `hi - lo` of a mass window, as a signed decimal. -/
def Dec.subW (hi lo : Dec) : WDec :=
  ⟨(hi.num : Int) * 10 ^ lo.exp - (lo.num : Int) * 10 ^ hi.exp, hi.exp + lo.exp⟩

/-- Exact `<` on signed decimal values. -/
def WDec.lt (a b : WDec) : Bool := a.wnum * 10 ^ b.wexp < b.wnum * 10 ^ a.wexp

/-- Numeric value of a digit string (most significant first). -/
def natOfDigits (s : Str) : Nat :=
  s.foldl (fun acc c => acc * 10 + (c.toNat - '0'.toNat)) 0

/-- Parse of the string forms accepted by Python `float` that are reachable
here: `digits`, `digits.digits`, `.digits`, `digits.` (no sign, exponent or
whitespace, which never occur in the converted seed-name fragments). -/
def floatParse (s : Str) : Option Dec :=
  match splitOnSub s ['.'] with
  | [a] =>
    if ¬ a.isEmpty ∧ a.all Char.isDigit then some ⟨natOfDigits a, 0⟩ else none
  | [a, b] =>
    if ¬ (a.isEmpty ∧ b.isEmpty) ∧ a.all Char.isDigit ∧ b.all Char.isDigit then
      some ⟨natOfDigits a * 10 ^ b.length + natOfDigits b, b.length⟩
    else none
  | _ => none

/-- Embedding of `convert_to_float` (remove_backup_seeds.py:137).  The
underscore removal is Python `val.replace('_','')` and the `p`-to-`.`
substitution is `val.replace('p','.')`; for the single-character patterns
these are exactly `filter` and `map`.  A failed `float()` conversion is the
caught `ValueError`, i.e. `none`. -/
def convert_to_float (val : Option Str) : Option Dec :=
  match val with
  | none => none
  | some v =>
    floatParse ((v.filter (fun c => c ≠ '_')).map (fun c => if c = 'p' then '.' else c))

/-! ## Seed basenames -/

/-- Embedding of `get_seed_basename` (remove_backup_seeds.py:123):
`None` unless the seed starts with `L1_`; otherwise `L1_` followed by the
part of `seed.replace('L1_','')` before the first underscore, truncated at
the first digit. -/
def get_seed_basename (seed : Str) : Option Str :=
  if startsWithS seed "L1_".data then
    some ("L1_".data ++
      ((takeUntilChar (replaceAll seed "L1_".data []) '_').takeWhile
        (fun c => ¬ c.isDigit)))
  else none

/-! ## Segment matchers

Each Python regular expression used by the criteria is embedded as a direct
matcher with the same backtracking semantics (leftmost match; alternatives
tried left to right; greedy `\d+` takes the maximal digit run, which is the
only viable choice because a shorter run would have to be followed by a
non-digit literal at a digit position; lazy `_*?`/`c*?` take the fewest
repetitions that allow the remainder to match). -/

/-- Greedy digit run: `(taken, rest)`. -/
def digitSpan (s : Str) : Str × Str := (s.takeWhile Char.isDigit, s.dropWhile Char.isDigit)

/-- Matcher for `(\d+p\d+|\d+)` anchored at the start: returns the matched
token and the rest.  The first alternative wins when the maximal digit run
is followed by `p` and a digit. -/
def matchNum (s : Str) : Option (Str × Str) :=
  match digitSpan s with
  | (d1, r1) =>
    if d1.isEmpty then none
    else
      match r1 with
      | c :: r2 =>
        if c = 'p' then
          match digitSpan r2 with
          | (d2, r3) => if d2.isEmpty then some (d1, r1) else some (d1 ++ 'p' :: d2, r3)
        else some (d1, r1)
      | [] => some (d1, r1)

/-- Matcher for `tag(\d+)p(\d+)|tag(\d+)` anchored at the start (the shape of
the `er`, `dR_Max` and `dR_Min` patterns): returns the whole match and the
rest. -/
def matchTagAt (tag : Str) (s : Str) : Option (Str × Str) :=
  if startsWithS s tag then
    match digitSpan (s.drop tag.length) with
    | (d1, r1) =>
      if d1.isEmpty then none
      else
        match r1 with
        | 'p' :: r2 =>
          match digitSpan r2 with
          | (d2, r3) =>
            if d2.isEmpty then some (tag ++ d1, r1) else some (tag ++ d1 ++ 'p' :: d2, r3)
        | _ => some (tag ++ d1, r1)
  else none

/-- Fuel-driven scan for the first match of an anchored matcher, trying each
start position left to right (`re.search`).  No matcher used here can match
the empty string, so the scan may stop at the end of the string. -/
def scanFirstF {α : Type} (f : Str → Option (α × Str)) : Nat → Str → Option α
  | 0, _ => none
  | _ + 1, [] => none
  | fuel + 1, c :: t =>
    match f (c :: t) with
    | some (a, _) => some a
    | none => scanFirstF f fuel t

/-- Fuel-driven scan counting non-overlapping matches (`len(re.findall(...))`),
resuming after the end of each match. -/
def scanCountF {α : Type} (f : Str → Option (α × Str)) : Nat → Str → Nat
  | 0, _ => 0
  | _ + 1, [] => 0
  | fuel + 1, c :: t =>
    match f (c :: t) with
    | some (_, rest) => 1 + scanCountF f fuel rest
    | none => scanCountF f fuel t

/-- First match of the `tag` pattern in `s` (`re.search(...).group(0)`). -/
def tagSearch (tag : Str) (s : Str) : Option Str :=
  scanFirstF (matchTagAt tag) (s.length + 1) s

/-- Number of matches of the `tag` pattern in `s` (`len(re.findall(...))`). -/
def tagCount (tag : Str) (s : Str) : Nat :=
  scanCountF (matchTagAt tag) (s.length + 1) s

/-! ## Tag-based criteria: eta restriction, dR_Max, dR_Min

These three criterion functions in the source (remove_backup_seeds.py:812,
920, 1027) are identical up to the tag (`er`, `dR_Max`, `dR_Min`), the
criterion name, and the comparison direction (`dR_Min` is inverted).  Each
also computes the two seed basenames without using them, so that step has no
effect and is omitted here. -/

/-- Stripped seed and matched tag substring: `seed.replace(tag_str, '')`
paired with `re.search(...).group(0)`. -/
def tagStrip (tag : Str) (s : Str) : Str × Option Str :=
  match tagSearch tag s with
  | some m => (replaceAll s m [], some m)
  | none => (s, none)

/-- Numeric value of a matched tag substring: `convert_to_float(m.replace(tag, ''))`. -/
def tagVal (tag : Str) : Option Str → Option Dec
  | some m => convert_to_float (some (replaceAll m tag []))
  | none => none

/-- Decision table shared by the tag criteria: backup when both values exist
and the comparison holds, or when only `seed` carries the restriction and its
value is positive. -/
def tightBackup (cmp : Dec → Dec → Bool) : Option Dec → Option Dec → Bool
  | some a, some b => cmp a b
  | some a, none => a.pos
  | _, _ => false

/-- Verdict constructor: the source returns
`(flag, otherseed if flag else None, name if flag else None)`. -/
def mkVerdict (otherseed critName : Str) (b : Bool) : Verdict :=
  (b, if b then some otherseed else none, if b then some critName else none)

/-- Common body of `criterion_er`, `criterion_dRmax` and `criterion_dRmin`. -/
def tagCriterion (tag critName : Str) (cmp : Dec → Dec → Bool)
    (seed : Str) (prescale : Int) (otherseed : Str) (otherprescale : Int)
    (ignore_zero_prescales check_prescales lazy : Bool) : Verdict :=
  if check_prescales ∧ prescale < otherprescale then noVerdict
  else if ¬ ignore_zero_prescales ∧ otherprescale = 0 then noVerdict
  else if 1 < tagCount tag seed ∨ 1 < tagCount tag otherseed then noVerdict
  else if tagCount tag seed = 0 ∧ tagCount tag otherseed = 0 then noVerdict
  else if ¬ lazy ∧ (tagStrip tag seed).1 ≠ (tagStrip tag otherseed).1 then noVerdict
  else
    mkVerdict otherseed critName
      (tightBackup cmp (tagVal tag (tagStrip tag seed).2)
        (tagVal tag (tagStrip tag otherseed).2))

/-- Embedding of `criterion_er` (remove_backup_seeds.py:812). -/
def criterion_er (seed : Str) (prescale : Int) (otherseed : Str)
    (otherprescale : Int) (ignore_zero_prescales check_prescales lazy : Bool) :
    Except PyErr Verdict :=
  .ok (tagCriterion "er".data "eta restriction".data Dec.lt
    seed prescale otherseed otherprescale ignore_zero_prescales check_prescales lazy)

/-- Embedding of `criterion_dRmax` (remove_backup_seeds.py:920). -/
def criterion_dRmax (seed : Str) (prescale : Int) (otherseed : Str)
    (otherprescale : Int) (ignore_zero_prescales check_prescales lazy : Bool) :
    Except PyErr Verdict :=
  .ok (tagCriterion "dR_Max".data "dR_Max".data Dec.lt
    seed prescale otherseed otherprescale ignore_zero_prescales check_prescales lazy)

/-- Embedding of `criterion_dRmin` (remove_backup_seeds.py:1027); the
comparison is inverted (`seed_dRmin_val > otherseed_dRmin_val`). -/
def criterion_dRmin (seed : Str) (prescale : Int) (otherseed : Str)
    (otherprescale : Int) (ignore_zero_prescales check_prescales lazy : Bool) :
    Except PyErr Verdict :=
  .ok (tagCriterion "dR_Min".data "dR_Min".data (fun a b => Dec.lt b a)
    seed prescale otherseed otherprescale ignore_zero_prescales check_prescales lazy)

/-! ## Prescale criterion -/

/-- Embedding of `criterion_prescale` (remove_backup_seeds.py:1374): backup
exactly when the names are identical and `prescale > otherprescale`. -/
def criterion_prescale (seed : Str) (prescale : Int) (otherseed : Str)
    (otherprescale : Int) (ignore_zero_prescales check_prescales _lazy : Bool) :
    Except PyErr Verdict :=
  .ok <|
    if check_prescales ∧ prescale < otherprescale then noVerdict
    else if ¬ ignore_zero_prescales ∧ otherprescale = 0 then noVerdict
    else if seed = otherseed ∧ otherprescale < prescale then
      (true, some otherseed, some "prescale".data)
    else noVerdict

/-! ## Isolation criterion -/

/-- Anchored matcher for the pattern `Iso|LooseIso`: the alternative `Iso`
is tried first, exactly as in the source pattern. -/
def matchIsoAt (s : Str) : Option (Str × Str) :=
  if startsWithS s "Iso".data then some ("Iso".data, s.drop 3)
  else if startsWithS s "LooseIso".data then some ("LooseIso".data, s.drop 8)
  else none

/-- First isolation match in `s`. -/
def isoSearch (s : Str) : Option Str := scanFirstF matchIsoAt (s.length + 1) s

/-- Number of isolation matches in `s`. -/
def isoCount (s : Str) : Nat := scanCountF matchIsoAt (s.length + 1) s

/-- Stripped seed for the isolation criterion: remove all copies of the
matched substring, then trim one trailing underscore if present. -/
def isoStrip (s : Str) : Str × Option Str :=
  match isoSearch s with
  | some m =>
    let st := replaceAll s m []
    ((if endsWithChar st '_' then dropLastChar st else st), some m)
  | none => (s, none)

/-- Backup decision of the isolation criterion: `Iso` is tighter than
`LooseIso`, which is tighter than no isolation flag. -/
def isoBackup : Option Str → Option Str → Bool
  | some a, some b => a = "Iso".data ∧ b = "LooseIso".data
  | some a, none => a = "Iso".data ∨ a = "LooseIso".data
  | _, _ => false

/-- Embedding of `criterion_isolation` (remove_backup_seeds.py:1431).  The
source computes the two seed basenames without using them; that step is
omitted. -/
def criterion_isolation (seed : Str) (prescale : Int) (otherseed : Str)
    (otherprescale : Int) (ignore_zero_prescales check_prescales lazy : Bool) :
    Except PyErr Verdict :=
  .ok <|
    if check_prescales ∧ prescale < otherprescale then noVerdict
    else if ¬ ignore_zero_prescales ∧ otherprescale = 0 then noVerdict
    else if 1 < isoCount seed ∨ 1 < isoCount otherseed then noVerdict
    else if isoCount seed = 0 ∧ isoCount otherseed = 0 then noVerdict
    else if ¬ lazy ∧ (isoStrip seed).1 ≠ (isoStrip otherseed).1 then noVerdict
    else
      mkVerdict otherseed "isolation".data
        (isoBackup (isoStrip seed).2 (isoStrip otherseed).2)

/-! ## Muon-quality criterion -/

/-- Python test `all([q not in s for q in ('_SQ','_DQ','_OQ')]) or '_SQ' in s`:
the seed counts as single quality. -/
def qualIsSQ (s : Str) : Bool :=
  (¬ (containsS s "_SQ".data ∨ containsS s "_DQ".data ∨ containsS s "_OQ".data))
    ∨ containsS s "_SQ".data

/-- Python test `all([q not in s for q in qualities]) or '_DQ' in s`: the seed
counts as double quality. -/
def qualIsDQ (s : Str) : Bool :=
  (¬ (containsS s "_SQ".data ∨ containsS s "_DQ".data ∨ containsS s "_OQ".data))
    ∨ containsS s "_DQ".data

/-- Accumulated `do_further_checks` flag of `criterion_quality`: the
single-muon block and the multi-muon block each may set it. -/
def qualDoChecks (sb seed otherseed : Str) : Bool :=
  (containsS (lowerStr sb) "singlemu".data ∧
    ((qualIsSQ seed ∧ (containsS otherseed "_DQ".data ∨ containsS otherseed "_OQ".data))
      ∨ (containsS seed "_DQ".data ∧ containsS otherseed "_OQ".data)))
  ∨ ((containsS (lowerStr sb) "doublemu".data ∨ containsS (lowerStr sb) "triplemu".data
        ∨ containsS (lowerStr sb) "quadmu".data) ∧
      ((containsS seed "_SQ".data ∧ (qualIsDQ otherseed ∨ containsS otherseed "_OQ".data))
        ∨ (qualIsDQ seed ∧ containsS otherseed "_OQ".data)))

/-- Residual of the quality criterion: remove the basename and all three
quality flags (all occurrences of each, in that order). -/
def qualStrip (sb s : Str) : Str :=
  replaceAll (replaceAll (replaceAll (replaceAll s sb []) "_SQ".data [])
    "_DQ".data []) "_OQ".data []

/-- Embedding of `criterion_quality` (remove_backup_seeds.py:1248): only
muon seeds are processed; the check block runs only when `lazy` is unset and
`do_further_checks` was raised, and then requires equal residuals. -/
def criterion_quality (seed : Str) (prescale : Int) (otherseed : Str)
    (otherprescale : Int) (ignore_zero_prescales check_prescales lazy : Bool) :
    Except PyErr Verdict :=
  .ok <|
    if check_prescales ∧ prescale < otherprescale then noVerdict
    else if ¬ ignore_zero_prescales ∧ otherprescale = 0 then noVerdict
    else
      match get_seed_basename seed with
      | none => noVerdict
      | some sb =>
        if ¬ (containsS (lowerStr sb) "singlemu".data
            ∨ containsS (lowerStr sb) "doublemu".data
            ∨ containsS (lowerStr sb) "triplemu".data
            ∨ containsS (lowerStr sb) "quadmu".data) then noVerdict
        else
          mkVerdict otherseed "muon quality".data
            (!lazy && qualDoChecks sb seed otherseed
              && decide (qualStrip sb seed = qualStrip sb otherseed))

/-! ## pT criterion: positional threshold matchers

The single-object pattern is `{basename}*?(\d+p\d+|\d+)` — note that the `*?`
applies to the last character of the basename.  The multi-object patterns
prefix the basename and then parse one mandatory threshold group and an
optional tail of further thresholds; see the group comments in the source
(remove_backup_seeds.py:409, 488, 603). -/

/-- Lazy star over `starChar` followed by a number: fewest repetitions win.
Returns `(group0-suffix-after-lit, group1)` and the rest (fuel-driven, with
fuel at least the length of `t`). -/
def singleLazy (lit : Str) (starChar : Char) : Nat → Str → Str → Option ((Str × Str) × Str)
  | 0, _, _ => none
  | fuel + 1, acc, t =>
    match matchNum t with
    | some (n, r) => some ((lit ++ acc ++ n, n), r)
    | none =>
      match t with
      | x :: t' =>
        if x = starChar then singleLazy lit starChar fuel (acc ++ [starChar]) t' else none
      | [] => none

/-- Anchored matcher for the single-object pattern: the basename with its
last character starred lazily, then `(\d+p\d+|\d+)`. -/
def matchSingleAt (b : Str) (s : Str) : Option ((Str × Str) × Str) :=
  if startsWithS s b.dropLast then
    singleLazy b.dropLast (b.getLastD ' ') (s.length + 1) [] (s.drop b.dropLast.length)
  else none

/-- Stripped name and threshold for the single-object branch:
`seed.replace(group0, '')` and `convert_to_float(group1)`. -/
def singleStrip (b s : Str) : Str × Option Dec :=
  match scanFirstF (matchSingleAt b) (s.length + 1) s with
  | some (g0, g1) => (replaceAll s g0 [], convert_to_float (some g1))
  | none => (s, none)

/-- Anchored matcher for the alternative `er\d+p\d+` alone (no short form). -/
def erLongAt (s : Str) : Option (Str × Str) :=
  if startsWithS s "er".data then
    match digitSpan (s.drop 2) with
    | (d1, r1) =>
      if d1.isEmpty then none
      else
        match r1 with
        | 'p' :: r2 =>
          match digitSpan r2 with
          | (d2, r3) => if d2.isEmpty then none else some ("er".data ++ d1 ++ 'p' :: d2, r3)
        | _ => none
  else none

/-- Group-4 matcher `(er\d+p\d+|\d+)?` of the multi-object patterns:
the `er` alternative first, then a bare digit run, else absent. -/
def g4At (s : Str) : Option Str × Str :=
  match erLongAt s with
  | some (m, r) => (some m, r)
  | none =>
    match digitSpan s with
    | (d, r) => if d.isEmpty then (none, s) else (some d, r)

/-- Group 2 of the multi-object patterns: `_*?(\d+p\d+|\d+)(er\d+p\d+|\d+)?`,
with the underscore star lazy.  Returns `(group2, group3, group4, rest)`. -/
def part2Lazy : Nat → Str → Str → Option (Str × Str × Option Str × Str)
  | 0, _, _ => none
  | fuel + 1, acc, t =>
    match matchNum t with
    | some (n, r) =>
      match g4At r with
      | (g4, r2) => some (acc ++ n ++ g4.getD [], n, g4, r2)
    | none =>
      match t with
      | '_' :: t' => part2Lazy fuel (acc ++ ['_']) t'
      | _ => none

/-- Group 5 of the double-object pattern: `(_*?(\d+p\d+|\d+)(er\d+p\d+|er\d+)?)?`.
Returns `(group5, group6, group7, rest)` when present. -/
def dblPart5Lazy : Nat → Str → Str → Option (Str × Str × Option Str × Str)
  | 0, _, _ => none
  | fuel + 1, acc, t =>
    match matchNum t with
    | some (n, r) =>
      match matchTagAt "er".data r with
      | some (m, r2) => some (acc ++ n ++ m, n, some m, r2)
      | none => some (acc ++ n, n, none, r)
    | none =>
      match t with
      | '_' :: t' => dblPart5Lazy fuel (acc ++ ['_']) t'
      | _ => none

/-- Capture groups of the double-object pattern. -/
structure Pt2 where
  g0 : Str
  g2 : Str
  g3 : Str
  g4 : Option Str
  g5 : Option Str
  g6 : Option Str
deriving DecidableEq, Repr

/-- Anchored matcher for the double-object pattern. -/
def matchDoubleAt (b : Str) (s : Str) : Option (Pt2 × Str) :=
  if startsWithS s b then
    match part2Lazy (s.length + 1) [] (s.drop b.length) with
    | some (g2, g3, g4, r) =>
      match dblPart5Lazy (s.length + 1) [] r with
      | some (g5, g6, _, r2) =>
        some (⟨b ++ g2 ++ g5, g2, g3, g4, some g5, some g6⟩, r2)
      | none => some (⟨b ++ g2, g2, g3, g4, none, none⟩, r)
    | none => none
  else none

/-- Inner er-group slot of the triple/quadruple patterns
(`(er\d+p\d+|er\d+)?` followed by the literal `_` and a number): the three
alternatives er-long, er-short and absent are mutually exclusive here, since
the character following the digit run decides which one can be followed by
`_`.  Returns `(er-group, next number, rest)`. -/
def erSlotThenNum (r : Str) : Option (Option Str × Str × Str) :=
  match erLongAt r with
  | some (m, rr) =>
    match rr with
    | '_' :: rr2 => (matchNum rr2).map (fun p => (some m, p.1, p.2))
    | _ =>
      match matchTagAt "er".data r with
      | some (m2, rr3) =>
        match rr3 with
        | '_' :: rr4 => (matchNum rr4).map (fun p => (some m2, p.1, p.2))
        | _ => none
      | none => none
  | none =>
    match matchTagAt "er".data r with
    | some (m2, rr3) =>
      match rr3 with
      | '_' :: rr4 => (matchNum rr4).map (fun p => (some m2, p.1, p.2))
      | _ => none
    | none =>
      match r with
      | '_' :: rr2 => (matchNum rr2).map (fun p => (none, p.1, p.2))
      | _ => none

/-- Capture groups of the triple-object pattern. -/
structure Pt3 where
  g0 : Str
  g2 : Str
  g3 : Str
  g4 : Option Str
  g5 : Option Str
  g6 : Option Str
  g8 : Option Str
deriving DecidableEq, Repr

/-- Group 5 of the triple-object pattern:
`(_(\d+p\d+|\d+)(er\d+p\d+|er\d+)?_(\d+p\d+|\d+)(er\d+p\d+|er\d+)?)?`.
Returns `(group5, group6, group8, rest)` when present. -/
def tripPart5 (r : Str) : Option (Str × Str × Str × Str) :=
  match r with
  | '_' :: r1 =>
    match matchNum r1 with
    | some (n2, r2) =>
      match erSlotThenNum r2 with
      | some (g7, n3, r5) =>
        match matchTagAt "er".data r5 with
        | some (m9, r6) =>
          some ('_' :: (n2 ++ g7.getD [] ++ '_' :: (n3 ++ m9)), n2, n3, r6)
        | none => some ('_' :: (n2 ++ g7.getD [] ++ '_' :: n3), n2, n3, r5)
      | none => none
    | none => none
  | _ => none

/-- Anchored matcher for the triple-object pattern. -/
def matchTripleAt (b : Str) (s : Str) : Option (Pt3 × Str) :=
  if startsWithS s b then
    match part2Lazy (s.length + 1) [] (s.drop b.length) with
    | some (g2, g3, g4, r) =>
      match tripPart5 r with
      | some (g5, g6, g8, r2) =>
        some (⟨b ++ g2 ++ g5, g2, g3, g4, some g5, some g6, some g8⟩, r2)
      | none => some (⟨b ++ g2, g2, g3, g4, none, none, none⟩, r)
    | none => none
  else none

/-- Capture groups of the quadruple-object pattern. -/
structure Pt4 where
  g0 : Str
  g2 : Str
  g3 : Str
  g4 : Option Str
  g5 : Option Str
  g6 : Option Str
  g8 : Option Str
  g10 : Option Str
deriving DecidableEq, Repr

/-- Group 5 of the quadruple-object pattern (three `_`-separated numbers with
optional er groups between them).  Returns `(group5, group6, group8, group10,
rest)` when present. -/
def quadPart5 (r : Str) : Option (Str × Str × Str × Str × Str) :=
  match r with
  | '_' :: r1 =>
    match matchNum r1 with
    | some (n2, r2) =>
      match erSlotThenNum r2 with
      | some (g7, n3, r5) =>
        match erSlotThenNum r5 with
        | some (g9, n4, r8) =>
          match matchTagAt "er".data r8 with
          | some (m11, r9) =>
            some ('_' :: (n2 ++ g7.getD [] ++ '_' :: (n3 ++ g9.getD [] ++ '_' :: (n4 ++ m11))),
              n2, n3, n4, r9)
          | none =>
            some ('_' :: (n2 ++ g7.getD [] ++ '_' :: (n3 ++ g9.getD [] ++ '_' :: n4)),
              n2, n3, n4, r8)
        | none => none
      | none => none
    | none => none
  | _ => none

/-- Anchored matcher for the quadruple-object pattern. -/
def matchQuadAt (b : Str) (s : Str) : Option (Pt4 × Str) :=
  if startsWithS s b then
    match part2Lazy (s.length + 1) [] (s.drop b.length) with
    | some (g2, g3, g4, r) =>
      match quadPart5 r with
      | some (g5, g6, g8, g10, r2) =>
        some (⟨b ++ g2 ++ g5, g2, g3, g4, some g5, some g6, some g8, some g10⟩, r2)
      | none => some (⟨b ++ g2, g2, g3, g4, none, none, none, none⟩, r)
    | none => none
  else none

/-! ## pT criterion: stripping and dominance -/

/-- Reconstructed replacement string `substr_stripped` of the double-object
branch and the stripped seed. -/
def doubleStrip (b s : Str) : Str × Option Dec × Option Dec :=
  match scanFirstF (matchDoubleAt b) (s.length + 1) s with
  | some m =>
    let t0 := replace1 m.g2 m.g3 []
    let t1 := if startsWithS t0 "_".data then t0.drop 1 else t0
    let sub := b ++ t1 ++ (match m.g5, m.g6 with
      | some g5, some g6 => replace1 g5 g6 []
      | _, _ => [])
    (replaceAll s m.g0 sub, convert_to_float (some m.g3), convert_to_float m.g6)
  | none => (s, none, none)

/-- Stripped seed and thresholds for the triple-object branch. -/
def tripleStrip (b s : Str) : Str × Option Dec × Option Dec × Option Dec :=
  match scanFirstF (matchTripleAt b) (s.length + 1) s with
  | some m =>
    let t0 := replace1 m.g2 m.g3 []
    let t1 := if startsWithS t0 "_".data then t0.drop 1 else t0
    let sub := b ++ t1 ++ (match m.g5, m.g6, m.g8 with
      | some g5, some g6, some g8 => replace1 (replace1 g5 g6 []) g8 []
      | _, _, _ => [])
    (replaceAll s m.g0 sub, convert_to_float (some m.g3), convert_to_float m.g6,
      convert_to_float m.g8)
  | none => (s, none, none, none)

/-- Stripped seed and thresholds for the quadruple-object branch. -/
def quadStrip (b s : Str) : Str × Option Dec × Option Dec × Option Dec × Option Dec :=
  match scanFirstF (matchQuadAt b) (s.length + 1) s with
  | some m =>
    let t0 := replace1 m.g2 m.g3 []
    let t1 := if startsWithS t0 "_".data then t0.drop 1 else t0
    let sub := b ++ t1 ++ (match m.g5, m.g6, m.g8, m.g10 with
      | some g5, some g6, some g8, some g10 =>
        replace1 (replace1 (replace1 g5 g6 []) g8 []) g10 []
      | _, _, _, _ => [])
    (replaceAll s m.g0 sub, convert_to_float (some m.g3), convert_to_float m.g6,
      convert_to_float m.g8, convert_to_float m.g10)
  | none => (s, none, none, none, none)

/-- Backup test of the single-object branch. -/
def ptSingleVerdict (b seed other : Str) (lazy : Bool) : Bool :=
  match singleStrip b seed, singleStrip b other with
  | (ss, st), (os, ot) =>
    if ¬ lazy ∧ ss ≠ os then false
    else
      match st, ot with
      | some a, some c => Dec.lt c a
      | _, _ => false

/-- Backup test of the double-object branch: both threshold vectors must have
an allowed shape, and dominance requires all components `≥` with at least one
strict. -/
def ptDoubleVerdict (b seed other : Str) (lazy : Bool) : Bool :=
  match doubleStrip b seed, doubleStrip b other with
  | (ss, s1, s2), (os, o1, o2) =>
    if ¬ lazy ∧ ss ≠ os then false
    else
      match s1, s2, o1, o2 with
      | some a1, none, some c1, none => Dec.lt c1 a1
      | some a1, some a2, some c1, some c2 =>
        (Dec.le c1 a1 && Dec.le c2 a2) && (Dec.lt c1 a1 || Dec.lt c2 a2)
      | _, _, _, _ => false

/-- Shape test `[float, None] / [float, float]` on a two-component vector. -/
def shape2 : Option Dec → Option Dec → Bool
  | some _, none => true
  | some _, some _ => true
  | _, _ => false

/-- Dominance of the first block of the triple-object branch (it only
examines the first two thresholds). -/
def twoDom : Option Dec → Option Dec → Option Dec → Option Dec → Bool
  | some a1, none, some c1, none => Dec.lt c1 a1
  | some a1, some a2, some c1, some c2 =>
    (Dec.le c1 a1 && Dec.le c2 a2) && (Dec.lt c1 a1 || Dec.lt c2 a2)
  | _, _, _, _ => false

/-- Shape test `[float, None, None] / [float, float, float]`. -/
def shape3 : Option Dec → Option Dec → Option Dec → Bool
  | some _, none, none => true
  | some _, some _, some _ => true
  | _, _, _ => false

/-- Dominance over three thresholds. -/
def threeDom : Option Dec → Option Dec → Option Dec → Option Dec → Option Dec →
    Option Dec → Bool
  | some a1, none, none, some c1, none, none => Dec.lt c1 a1
  | some a1, some a2, some a3, some c1, some c2, some c3 =>
    (Dec.le c1 a1 && Dec.le c2 a2 && Dec.le c3 a3)
      && (Dec.lt c1 a1 || Dec.lt c2 a2 || Dec.lt c3 a3)
  | _, _, _, _, _, _ => false

/-- Backup test of the triple-object branch.  It mirrors the source exactly:
the first residual check (remove_backup_seeds.py:544) ignores `lazy`; the
first block checks the two-component shape and dominance; the second block
repeats the (now vacuous) residual check with `lazy`, then checks the
three-component shape — discarding any earlier positive on failure — and
accumulates the three-component dominance. -/
def ptTripleVerdict (b seed other : Str) (lazy : Bool) : Bool :=
  match tripleStrip b seed, tripleStrip b other with
  | (ss, s1, s2, s3), (os, o1, o2, o3) =>
    if ss ≠ os then false
    else if ¬ (shape2 s1 s2 ∧ shape2 o1 o2) then false
    else if ¬ lazy ∧ ss ≠ os then false
    else if ¬ (shape3 s1 s2 s3 ∧ shape3 o1 o2 o3) then false
    else twoDom s1 s2 o1 o2 || threeDom s1 s2 s3 o1 o2 o3

/-- Shape test `[float, None, None, None] / [float, float, float, float]`. -/
def shape4 : Option Dec → Option Dec → Option Dec → Option Dec → Bool
  | some _, none, none, none => true
  | some _, some _, some _, some _ => true
  | _, _, _, _ => false

/-- Dominance over four thresholds. -/
def fourDom : Option Dec → Option Dec → Option Dec → Option Dec → Option Dec →
    Option Dec → Option Dec → Option Dec → Bool
  | some a1, none, none, none, some c1, none, none, none => Dec.lt c1 a1
  | some a1, some a2, some a3, some a4, some c1, some c2, some c3, some c4 =>
    (Dec.le c1 a1 && Dec.le c2 a2 && Dec.le c3 a3 && Dec.le c4 a4)
      && (Dec.lt c1 a1 || Dec.lt c2 a2 || Dec.lt c3 a3 || Dec.lt c4 a4)
  | _, _, _, _, _, _, _, _ => false

/-- Backup test of the quadruple-object branch. -/
def ptQuadVerdict (b seed other : Str) (lazy : Bool) : Bool :=
  match quadStrip b seed, quadStrip b other with
  | (ss, s1, s2, s3, s4), (os, o1, o2, o3, o4) =>
    if ¬ lazy ∧ ss ≠ os then false
    else if ¬ (shape4 s1 s2 s3 s4 ∧ shape4 o1 o2 o3 o4) then false
    else fourDom s1 s2 s3 s4 o1 o2 o3 o4

/-- Embedding of `criterion_pT` (remove_backup_seeds.py:301): prescale
prechecks, then dispatch on the multiplicity class read off the seed's
basename (the pattern is built from the first seed's basename for both
sides). -/
def criterion_pT (seed : Str) (prescale : Int) (otherseed : Str)
    (otherprescale : Int) (ignore_zero_prescales check_prescales lazy : Bool) :
    Except PyErr Verdict :=
  .ok <|
    if check_prescales ∧ prescale < otherprescale then noVerdict
    else if ¬ ignore_zero_prescales ∧ otherprescale = 0 then noVerdict
    else
      match get_seed_basename seed, get_seed_basename otherseed with
      | some sb, some _ =>
        mkVerdict otherseed "pT".data
          (if ¬ (containsS (lowerStr sb) "double".data ∨ containsS (lowerStr sb) "triple".data
              ∨ containsS (lowerStr sb) "quad".data) then
            ptSingleVerdict sb seed otherseed lazy
          else if containsS (lowerStr sb) "double".data then
            ptDoubleVerdict sb seed otherseed lazy
          else if containsS (lowerStr sb) "triple".data then
            ptTripleVerdict sb seed otherseed lazy
          else if containsS (lowerStr sb) "quad".data then
            ptQuadVerdict sb seed otherseed lazy
          else false)
      | _, _ => noVerdict

/-! ## pT-extra criterion -/

/-- Anchored matcher for `lit(\d+)`: the literal followed by a digit run;
returns the digit group and the rest. -/
def matchLitNumAt (lit : Str) (s : Str) : Option (Str × Str) :=
  if startsWithS s lit then
    match digitSpan (s.drop lit.length) with
    | (d, r) => if d.isEmpty then none else some (d, r)
  else none

/-- First digit group after an occurrence of `lit` (`re.search(lit(\d+))`). -/
def litNumSearch (lit : Str) (s : Str) : Option Str :=
  scanFirstF (matchLitNumAt lit) (s.length + 1) s

/-- The `(pattern literal, replacement condition)` pairs of
`criterion_pT_extra`: the search literal of `_Mt` keeps the underscore but
the replacement uses `Mt`. -/
def pteAttrs : List (Str × Str) :=
  [("EG".data, "EG".data), ("ETMHF".data, "ETMHF".data), ("HTT".data, "HTT".data),
   ("_Mt".data, "Mt".data), ("Tau".data, "Tau".data),
   ("Mass_Min".data, "Mass_Min".data)]

/-- One loop iteration of `criterion_pT_extra`: when the pattern occurs in
both (mutated) stripped names, the threshold occurrence is collapsed in each
and — if no further differences remain — the numeric comparison runs.
Comparing `None` values would be a Python `TypeError`. -/
def pteStep (st : Str × Str × Bool) (attr : Str × Str) : Except PyErr (Str × Str × Bool) :=
  match st with
  | (s, o, flag) =>
    match litNumSearch attr.1 s, litNumSearch attr.1 o with
    | some sd, some od =>
      let s' := replaceAll s (attr.2 ++ sd) attr.2
      let o' := replaceAll o (attr.2 ++ od) attr.2
      if s' ≠ o' then .ok (s', o', flag)
      else
        match convert_to_float (some sd), convert_to_float (some od) with
        | some a, some c => .ok (s', o', flag || Dec.lt c a)
        | _, _ => .error .typeError
    | _, _ => .ok (s, o, flag)

/-- Fold of `pteStep` over the attribute list. -/
def pteRun (s o : Str) : Except PyErr (Str × Str × Bool) :=
  pteAttrs.foldlM pteStep (s, o, false)

/-- Embedding of `criterion_pT_extra` (remove_backup_seeds.py:701): the
basenames are removed first (all occurrences), then each embedded-threshold
pattern is processed in turn.  The `lazy` option is accepted but never used
by this criterion. -/
def criterion_pT_extra (seed : Str) (prescale : Int) (otherseed : Str)
    (otherprescale : Int) (ignore_zero_prescales check_prescales _lazy : Bool) :
    Except PyErr Verdict :=
  if check_prescales ∧ prescale < otherprescale then .ok noVerdict
  else if ¬ ignore_zero_prescales ∧ otherprescale = 0 then .ok noVerdict
  else
    match get_seed_basename seed, get_seed_basename otherseed with
    | some sb, some ob => do
      let st ← pteRun (replaceAll seed sb []) (replaceAll otherseed ob [])
      .ok (mkVerdict otherseed "pT".data st.2.2)
    | _, _ => .ok noVerdict

/-! ## Mass-window criterion -/

/-- Continuation after the first number of the mass pattern: requires the
literal `to` and then the second number. -/
def massAfterTo (n1 r : Str) : Option (Str × Str × Str) :=
  if startsWithS r "to".data then
    (matchNum (r.drop 2)).map (fun p => (n1, p.1, p.2))
  else none

/-- The two numbers of `(\d+p\d+|\d+)to(\d+p\d+|\d+)` anchored at the start:
the long alternative of the first number is preferred, falling back to the
bare digit run when `to` does not follow. -/
def massNumsAt (t : Str) : Option (Str × Str × Str) :=
  match digitSpan t with
  | (d1, r1) =>
    if d1.isEmpty then none
    else
      match r1 with
      | c :: r2 =>
        if c = 'p' then
          match digitSpan r2 with
          | (d2, r3) =>
            if d2.isEmpty then massAfterTo d1 r1
            else
              match massAfterTo (d1 ++ 'p' :: d2) r3 with
              | some res => some res
              | none => massAfterTo d1 r1
        else massAfterTo d1 r1
      | [] => massAfterTo d1 r1

/-- Lazy `_*?` of the mass pattern. -/
def massTryU : Nat → Str → Str → Option (Str × Str × Str × Str)
  | 0, _, _ => none
  | fuel + 1, acc, t =>
    match massNumsAt t, t with
    | some (n1, n2, rest), _ => some (acc, n1, n2, rest)
    | none, c :: t' => if c = '_' then massTryU fuel (acc ++ ['_']) t' else none
    | none, [] => none

/-- Anchored matcher for `Mass(_*?)(\d+p\d+|\d+)to(\d+p\d+|\d+)`: returns
`(underscores, low, high)` and the rest. -/
def matchMassAt (s : Str) : Option ((Str × Str × Str) × Str) :=
  if startsWithS s "Mass".data then
    (massTryU (s.length + 1) [] (s.drop 4)).map (fun q => ((q.1, q.2.1, q.2.2.1), q.2.2.2))
  else none

/-- First mass-window match in `s`. -/
def massSearch (s : Str) : Option (Str × Str × Str) :=
  scanFirstF matchMassAt (s.length + 1) s

/-- Number of mass-window matches in `s`. -/
def massCount (s : Str) : Nat := scanCountF matchMassAt (s.length + 1) s

/-- Group 0 of a mass-window match. -/
def massG0 (r : Str × Str × Str) : Str :=
  "Mass".data ++ r.1 ++ r.2.1 ++ "to".data ++ r.2.2

/-- Stripped seed for the mass criterion: remove all copies of group 0, then
trim one trailing underscore if present. -/
def massStrip (s g0 : Str) : Str :=
  match replaceAll s g0 [] with
  | st => if endsWithChar st '_' then dropLastChar st else st

/-- Range extraction from a matched mass substring: slice from the first
digit (`re.search('\d', ...)` — `AttributeError` if there is none), split on
`to`, and convert each part.  The conversions may produce `None`. -/
def massRange (g0 : Str) : Except PyErr (List (Option Dec)) :=
  if g0.any Char.isDigit then
    .ok ((splitOnSub (g0.dropWhile (fun c => !c.isDigit)) "to".data).map
      (fun v => convert_to_float (some v)))
  else .error .attributeError

/-- Width comparison `range[1]-range[0] < other[1]-other[0]`: indexing a
short list is an `IndexError` and arithmetic on `None` a `TypeError`. -/
def rangeWidthLt (sr o : List (Option Dec)) : Except PyErr Bool :=
  match sr.get? 1, sr.get? 0, o.get? 1, o.get? 0 with
  | some shv, some slv, some ohv, some olv =>
    match shv, slv, ohv, olv with
    | some sh, some sl, some oh, some ol =>
      .ok (WDec.lt (Dec.subW sh sl) (Dec.subW oh ol))
    | _, _, _, _ => .error .typeError
  | _, _, _, _ => .error .indexError

/-- Embedding of `criterion_MassXtoY` (remove_backup_seeds.py:1134).  The
source computes the two seed basenames without using them; that step is
omitted. -/
def criterion_MassXtoY (seed : Str) (prescale : Int) (otherseed : Str)
    (otherprescale : Int) (ignore_zero_prescales check_prescales lazy : Bool) :
    Except PyErr Verdict :=
  if check_prescales ∧ prescale < otherprescale then .ok noVerdict
  else if ¬ ignore_zero_prescales ∧ otherprescale = 0 then .ok noVerdict
  else if 1 < massCount seed ∨ 1 < massCount otherseed then .ok noVerdict
  else if massCount seed = 0 ∧ massCount otherseed = 0 then .ok noVerdict
  else
    match massSearch seed, massSearch otherseed with
    | some sm, some om =>
      if ¬ lazy ∧ massStrip seed (massG0 sm) ≠ massStrip otherseed (massG0 om) then
        .ok noVerdict
      else do
        let sr ← massRange (massG0 sm)
        let orr ← massRange (massG0 om)
        let bLt ← rangeWidthLt sr orr
        .ok (mkVerdict otherseed "MassXtoY".data bLt)
    | some sm, none =>
      if ¬ lazy ∧ massStrip seed (massG0 sm) ≠ otherseed then .ok noVerdict
      else do
        let _ ← massRange (massG0 sm)
        .ok (mkVerdict otherseed "MassXtoY".data true)
    | none, some om =>
      if ¬ lazy ∧ seed ≠ massStrip otherseed (massG0 om) then .ok noVerdict
      else do
        let _ ← massRange (massG0 om)
        .ok noVerdict
    | none, none => .ok noVerdict

/-! ## Classification engine

Tables are modelled as a header list plus rectangular rows of cells; a cell
is either a string or an integer (the two value kinds the classification
code distinguishes).  Reading a non-integer cell as a prescale value is
modelled as a `TypeError`: in Python such a value would raise at its first
order comparison (write-mode filter or criterion precheck).  The theorems
below assume integer prescale columns, where the model and the source agree
exactly. -/

/-- Table cell: a string or an integer value. -/
inductive Cell where
  | str (s : Str)
  | int (z : Int)
deriving DecidableEq, Repr

/-- Cell of a row at a column index (rows are assumed rectangular, as pandas
guarantees for a DataFrame). -/
def cellAt (r : List Cell) (i : Nat) : Cell := r.getD i (.int 0)

/-- Table row. -/
abbrev Row := List Cell

/-- Prescale value of a cell; a non-integer prescale is modelled as an
immediate `TypeError` (see the section comment). -/
def asPS : Cell → Except PyErr Int
  | .int z => .ok z
  | .str _ => .error .typeError

/-- Embedding of `get_PS_col_idx` (remove_backup_seeds.py:41): exactly one
column name must equal `prescale` or `ps` case-insensitively; its index is
returned. -/
def get_PS_col_idx (cols : List Str) : Except PyErr Nat :=
  match cols.map (fun c => decide (lowerStr c = "prescale".data ∨ lowerStr c = "ps".data)) with
  | bs => if bs.count true ≠ 1 then .error .runtimeError else .ok (bs.indexOf true)

/-- Occurrence counts of `L1_`-values per column
(remove_backup_seeds.py:87-91). -/
def nameColCounts (cols : List Str) (rows : List Row) : List Nat :=
  (List.range cols.length).map (fun i =>
    (rows.filter (fun r =>
      match cellAt r i with
      | .str s => startsWithS s "L1_".data
      | .int _ => false)).length)

/-- Embedding of `get_name_col_idx` (remove_backup_seeds.py:68): fatal only
when no column holds any `L1_` string; otherwise the first column attaining
the maximal count (`cnt.index(max(cnt))`). -/
def get_name_col_idx (cols : List Str) (rows : List Row) : Except PyErr Nat :=
  match nameColCounts cols rows with
  | cnt =>
    if cnt.all (fun c => c = 0) then .error .runtimeError
    else .ok (cnt.indexOf (cnt.foldr max 0))

/-- Type of an embedded criterion function. -/
abbrev CritFun := Str → Int → Str → Int → Bool → Bool → Bool → Except PyErr Verdict

/-- The criterion list of `has_signal_seed` (remove_backup_seeds.py:268), in
source order, each with an empty option string — so `lazy` is `False` for
every call. -/
def criterionFunctions : List CritFun :=
  [criterion_prescale, criterion_pT, criterion_pT_extra, criterion_er,
   criterion_dRmax, criterion_dRmin, criterion_MassXtoY, criterion_quality,
   criterion_isolation]

/-- Inner loop of `has_signal_seed` over the criterion list for one other
seed: non-string other seeds are skipped (the `all str` type guard), and a
positive verdict appends the identified signal seed and criterion name. -/
def critLoop (seed : Str) (ps : Int) (oc opc : Cell) (cp kz : Bool) :
    Bool × List Str × List Str → List CritFun → Except PyErr (Bool × List Str × List Str)
  | st, [] => .ok st
  | st, c :: cs =>
    match oc with
    | .int _ => critLoop seed ps oc opc cp kz st cs
    | .str o => do
      let op ← asPS opc
      let (b, i, cn) ← c seed ps o op kz cp false
      if b then
        critLoop seed ps oc opc cp kz
          (true, st.2.1 ++ [i.getD []], st.2.2 ++ [cn.getD []]) cs
      else critLoop seed ps oc opc cp kz st cs

/-- Outer loop of `has_signal_seed` over all `(otherseed, otherprescale)`
pairs. -/
def hssGo (seed : Str) (ps : Int) (cp kz : Bool) :
    Bool × List Str × List Str → List (Cell × Cell) →
    Except PyErr (Bool × List Str × List Str)
  | st, [] => .ok st
  | st, (oc, opc) :: rest => do
    let st' ← critLoop seed ps oc opc cp kz st criterionFunctions
    hssGo seed ps cp kz st' rest

/-- Embedding of `has_signal_seed` (remove_backup_seeds.py:260): every other
seed is run through every criterion with `lazy` unset,
`check_prescales := check_prescales` and
`ignore_zero_prescales := keep_zero_prescales`, accumulating all positive
verdicts. -/
def has_signal_seed (seed : Str) (ps : Int) (allSeeds allPS : List Cell)
    (check_prescales keep_zero_prescales : Bool) :
    Except PyErr (Bool × List Str × List Str) :=
  hssGo seed ps check_prescales keep_zero_prescales (false, [], []) (allSeeds.zip allPS)

/-- Decimal digits of a natural number (fuel-driven). -/
def natStrGo : Nat → Nat → Str
  | 0, _ => []
  | f + 1, n =>
    if n < 10 then [Char.ofNat ('0'.toNat + n)]
    else natStrGo f (n / 10) ++ [Char.ofNat ('0'.toNat + n % 10)]

/-- Python `str(n)` for a natural number. -/
def natStr (n : Nat) : Str := natStrGo (n + 1) n

/-- Python `str(z)` for an integer. -/
def intStr (z : Int) : Str :=
  if z < 0 then '-' :: natStr z.natAbs else natStr z.natAbs

/-- Python `', '.join(xs)`. -/
def joinComma : List Str → Str
  | [] => []
  | [x] => x
  | x :: y :: t => x ++ ", ".data ++ joinComma (y :: t)

/-- Row of the backup-seeds audit table: seed, prescale, comma-joined signal
seeds (with prescales), comma-joined criterion names. -/
abbrev InfoRow := Str × Int × Str × Str

/-- Prescale of the (unique) row named `s`, as used by the provenance
formatting `int(table[table[...] == s][PS_col])`: `int()` of a Series with
more or fewer than one element is a `TypeError`. -/
def lookupPS (rows : List Row) (nIdx pIdx : Nat) (s : Str) : Except PyErr Int :=
  match rows.filter (fun r => cellAt r nIdx == Cell.str s) with
  | [r] => asPS (cellAt r pIdx)
  | _ => .error .typeError

/-- Decision of the classification loop for a single row. -/
inductive RowDecision where
  | skip
  | signal
  | backup (info : InfoRow)
deriving DecidableEq, Repr

/-- Loop body of `separate_signal_and_backup_seeds`
(remove_backup_seeds.py:192-240) for one row: grammar and write-mode and
zero-prescale filters, then the force-list membership (a `TypeError` when the
default `force_backup_seeds=None` is reached — `in None` is not iterable),
then classification through `has_signal_seed` and provenance formatting. -/
def processRow (rows : List Row) (nIdx pIdx : Nat) (cp kz : Bool) (wm : Str)
    (force : Option (List Str)) (row : Row) : Except PyErr RowDecision :=
  match cellAt row nIdx with
  | .int _ => .ok .skip
  | .str seed =>
    if ¬ startsWithS seed "L1_".data then .ok .skip
    else do
      let ps ← asPS (cellAt row pIdx)
      if wm = "unprescaled".data ∧ ps ≠ 1 then .ok .skip
      else if wm = "prescaled".data ∧ ps ≤ 1 then .ok .skip
      else if ¬ kz ∧ ps = 0 then .ok .skip
      else
        match force with
        | none => .error .typeError
        | some fl =>
          if seed ∈ fl then
            .ok (.backup (seed, ps, "[NaN - backup seed set manually]".data, []))
          else do
            let (b, ids, crits) ← has_signal_seed seed ps
              (rows.map (fun r => cellAt r nIdx)) (rows.map (fun r => cellAt r pIdx)) cp kz
            let fmt ← ids.mapM (fun s => do
              let v ← lookupPS rows nIdx pIdx s
              pure (s ++ " (PS: ".data ++ intStr v ++ [')']))
            if b then .ok (.backup (seed, ps, joinComma fmt, joinComma crits))
            else .ok .signal

/-- Fold of `processRow` over the table rows, accumulating the signal rows,
backup rows and audit entries. -/
def sepGo (rows : List Row) (nIdx pIdx : Nat) (cp kz : Bool) (wm : Str)
    (force : Option (List Str)) :
    List Row × List Row × List InfoRow → List Row →
    Except PyErr (List Row × List Row × List InfoRow)
  | acc, [] => .ok acc
  | (sig, bak, info), r :: rs => do
    let d ← processRow rows nIdx pIdx cp kz wm force r
    match d with
    | .skip => sepGo rows nIdx pIdx cp kz wm force (sig, bak, info) rs
    | .signal => sepGo rows nIdx pIdx cp kz wm force (sig ++ [r], bak, info) rs
    | .backup e => sepGo rows nIdx pIdx cp kz wm force (sig, bak ++ [r], info ++ [e]) rs

/-- The three allowed write modes. -/
def allowedModes : List Str :=
  ["inclusive".data, "unprescaled".data, "prescaled".data]

/-- Embedding of `separate_signal_and_backup_seeds`
(remove_backup_seeds.py:169): validates the write mode, identifies the name
and prescale columns (in that order), and folds the per-row classification,
returning the signal rows, the backup rows, and the audit table (which the
source prints and writes to an HTML file). -/
def separate_signal_and_backup_seeds (cols : List Str) (rows : List Row)
    (check_prescales keep_zero_prescales : Bool) (wm : Str)
    (force : Option (List Str)) :
    Except PyErr (List Row × List Row × List InfoRow) :=
  if (allowedModes.map (fun m => decide (m = wm))).count true ≠ 1 then
    .error .runtimeError
  else do
    let nIdx ← get_name_col_idx cols rows
    let pIdx ← get_PS_col_idx cols
    sepGo rows nIdx pIdx check_prescales keep_zero_prescales wm force ([], [], []) rows

/-! ## Prescale-table regeneration (psutils/pstable.py, ps-generate.py) -/

/-- Prescale table for the regeneration path: header list plus rows. -/
structure PsTable where
  cols : List Str
  rows : List Row
deriving DecidableEq, Repr

/-- Embedding of `estimate_value` (pstable.py:4): the estimation hook always
returns `None` ("no estimate available"). -/
def estimate_value (_ : Str) : Option Cell := none

/-- Embedding of `find_table_value` (pstable.py:9): requires a `Name`
column; if the seed occurs in it, the first matching row's value for `col`
with exit code `0` (missing `col` would be a pandas `KeyError`); otherwise
the estimation hook's value with exit code `1`. -/
def find_table_value (t : PsTable) (seed : Str) (col : Str) :
    Except PyErr (Option Cell × Nat) :=
  if "Name".data ∉ t.cols then .error .runtimeError
  else
    match t.rows.find? (fun r => cellAt r (t.cols.indexOf "Name".data) == Cell.str seed) with
    | some r =>
      if col ∈ t.cols then .ok (some (cellAt r (t.cols.indexOf col)), 0)
      else .error .keyError
    | none => .ok (estimate_value seed, 1)

/-- Scientific rendering `'{:.2E}'.format(float(c))` of a decimal value,
with round-half-even to three significant digits.  (The source formats the
IEEE double; on the reachable inputs of the theorems below this branch is
dead, since the column labels are required not to parse as floats.) -/
def sciFmt (d : Dec) : Str :=
  if d.num = 0 then "0.00E+00".data
  else
    match natStr d.num with
    | ds =>
      let e : Int := (ds.length : Int) - 1 - (d.exp : Int)
      let k := ds.length - 3
      let m3 :=
        if ds.length ≤ 3 then d.num * 10 ^ (3 - ds.length)
        else
          let q := d.num / 10 ^ k
          let r := d.num % 10 ^ k
          let half := 5 * 10 ^ (k - 1)
          q + (if r > half ∨ (r = half ∧ q % 2 = 1) then 1 else 0)
      let (m3, e) := if m3 = 1000 then (100, e + 1) else (m3, e)
      match natStr m3 with
      | a :: bc =>
        let pad2 := fun (n : Nat) => if n < 10 then '0' :: natStr n else natStr n
        a :: '.' :: bc ++ ['E', if e < 0 then '-' else '+'] ++ pad2 e.natAbs
      | [] => []

/-- Pretty column label of the missing-values report (ps-generate.py:55-59):
numeric labels are re-rendered in scientific notation, all others are kept
verbatim (`float(col)` raising `ValueError`). -/
def colPretty (c : Str) : Str :=
  match floatParse c with
  | some d => sciFmt d
  | none => c

/-- Entry of the missing-prescale-values list:
`(index, seed, pretty column, estimated value)`. -/
abbrev MissingEntry := Int × Str × Str × Option Cell

/-- One column of the regeneration row assembly (ps-generate.py:47-60):
`Index` and `Name` are filled from the menu, everything else is looked up in
the old table; estimated lookups are recorded in the missing list. -/
def regenStep (old : PsTable) (seed : Str) (index : Int)
    (acc : List (Str × Option Cell) × List MissingEntry) (col : Str) :
    Except PyErr (List (Str × Option Cell) × List MissingEntry) :=
  if col = "Index".data then .ok (acc.1 ++ [(col, some (Cell.int index))], acc.2)
  else if col = "Name".data then .ok (acc.1 ++ [(col, some (Cell.str seed))], acc.2)
  else do
    let (v, ec) ← find_table_value old seed col
    if ec = 1 then
      .ok (acc.1 ++ [(col, v)], acc.2 ++ [(index, seed, colPretty col, v)])
    else .ok (acc.1 ++ [(col, v)], acc.2)

/-- Row assembly loop of the regeneration path (see `regenStep`). -/
def regenRow (old : PsTable) (seed : Str) (index : Int) :
    Except PyErr (List (Str × Option Cell) × List MissingEntry) :=
  old.cols.foldlM (regenStep old seed index) ([], [])

/-- One seed of the regeneration loop (ps-generate.py:45-65): appends the
assembled row and its missing entries. -/
def regenAcc (old : PsTable)
    (acc : List (List (Str × Option Cell)) × List MissingEntry) (si : Str × Int) :
    Except PyErr (List (List (Str × Option Cell)) × List MissingEntry) := do
  let (nd, miss) ← regenRow old si.1 si.2
  .ok (acc.1 ++ [nd], acc.2 ++ miss)

/-- Regeneration loop over the new menu: produces the new table rows (as
column-name/value pairs, in old-table column order) and the accumulated
missing list.  The source's final sorting and column reordering are
presentation steps on the same data. -/
def regenerate (old : PsTable) (menu : List (Str × Int)) :
    Except PyErr (List (List (Str × Option Cell)) × List MissingEntry) :=
  menu.foldlM (regenAcc old) ([], [])

/-! ## Auxiliary predicates and specification-side definitions -/

deriving instance DecidableEq for Except

/-- Equality of the partition result of the classification fold is
decidable (stated explicitly; instance search does not find the nested
product on its own). -/
instance : DecidableEq (List Row × List InfoRow) := instDecidableEqProd

/-- Equality of the full output of `separate_signal_and_backup_seeds` is
decidable. -/
instance : DecidableEq (List Row × List Row × List InfoRow) :=
  instDecidableEqProd

/-- Shape invariant of the numeric tokens produced by the `(\d+p\d+|\d+)`
matcher: a nonempty digit run, or two nonempty digit runs joined by `p`. -/
def NumTok (n : Str) : Prop :=
  (n ≠ [] ∧ ∀ c ∈ n, c.isDigit) ∨
  (∃ d1 d2, n = d1 ++ 'p' :: d2 ∧ d1 ≠ [] ∧ d2 ≠ [] ∧
    (∀ c ∈ d1, c.isDigit) ∧ (∀ c ∈ d2, c.isDigit))

/-- The seed name contains at most one distinct muon-quality flag. -/
def atMostOneQualFlag (s : Str) : Prop :=
  ¬ (containsS s "_SQ".data = true ∧ containsS s "_DQ".data = true) ∧
  ¬ (containsS s "_SQ".data = true ∧ containsS s "_OQ".data = true) ∧
  ¬ (containsS s "_DQ".data = true ∧ containsS s "_OQ".data = true)

/-- Residual of the pT criterion applied to `target`, using the pattern built
from `seed`'s basename and the branch selected by `seed`'s multiplicity class
— exactly the `seed_stripped`/`otherseed_stripped` values of the source. -/
def ptResid (seed target : Str) : Str :=
  match get_seed_basename seed with
  | none => target
  | some sb =>
    if ¬ (containsS (lowerStr sb) "double".data ∨ containsS (lowerStr sb) "triple".data
        ∨ containsS (lowerStr sb) "quad".data) then (singleStrip sb target).1
    else if containsS (lowerStr sb) "double".data then (doubleStrip sb target).1
    else if containsS (lowerStr sb) "triple".data then (tripleStrip sb target).1
    else if containsS (lowerStr sb) "quad".data then (quadStrip sb target).1
    else target

/-- Residual of the mass criterion: the seed with its matched mass window
removed and one trailing underscore trimmed (the seed itself if no match). -/
def massResidOf (s : Str) : Str :=
  match massSearch s with
  | some m => massStrip s (massG0 m)
  | none => s

/-- Modelled from the spec: the tag criterion with the residual-equality
check skipped, which is what the spec states the `lazy` option does for
these dimensions. -/
def tagCriterionLazySpec (tag critName : Str) (cmp : Dec → Dec → Bool)
    (seed : Str) (prescale : Int) (otherseed : Str) (otherprescale : Int)
    (ignore_zero_prescales check_prescales : Bool) : Verdict :=
  if check_prescales ∧ prescale < otherprescale then noVerdict
  else if ¬ ignore_zero_prescales ∧ otherprescale = 0 then noVerdict
  else if 1 < tagCount tag seed ∨ 1 < tagCount tag otherseed then noVerdict
  else if tagCount tag seed = 0 ∧ tagCount tag otherseed = 0 then noVerdict
  else
    mkVerdict otherseed critName
      (tightBackup cmp (tagVal tag (tagStrip tag seed).2)
        (tagVal tag (tagStrip tag otherseed).2))

/-- Modelled from the spec: the isolation criterion with the
residual-equality check skipped. -/
def isoLazySpec (seed : Str) (prescale : Int) (otherseed : Str)
    (otherprescale : Int) (ignore_zero_prescales check_prescales : Bool) : Verdict :=
  if check_prescales ∧ prescale < otherprescale then noVerdict
  else if ¬ ignore_zero_prescales ∧ otherprescale = 0 then noVerdict
  else if 1 < isoCount seed ∨ 1 < isoCount otherseed then noVerdict
  else if isoCount seed = 0 ∧ isoCount otherseed = 0 then noVerdict
  else
    mkVerdict otherseed "isolation".data
      (isoBackup (isoStrip seed).2 (isoStrip otherseed).2)

/-- Modelled from the spec: the mass criterion with the residual-equality
check skipped. -/
def massLazySpec (seed : Str) (prescale : Int) (otherseed : Str)
    (otherprescale : Int) (ignore_zero_prescales check_prescales : Bool) :
    Except PyErr Verdict :=
  if check_prescales ∧ prescale < otherprescale then .ok noVerdict
  else if ¬ ignore_zero_prescales ∧ otherprescale = 0 then .ok noVerdict
  else if 1 < massCount seed ∨ 1 < massCount otherseed then .ok noVerdict
  else if massCount seed = 0 ∧ massCount otherseed = 0 then .ok noVerdict
  else
    match massSearch seed, massSearch otherseed with
    | some sm, some om => do
      let sr ← massRange (massG0 sm)
      let orr ← massRange (massG0 om)
      let bLt ← rangeWidthLt sr orr
      .ok (mkVerdict otherseed "MassXtoY".data bLt)
    | some sm, none => do
      let _ ← massRange (massG0 sm)
      .ok (mkVerdict otherseed "MassXtoY".data true)
    | none, some om => do
      let _ ← massRange (massG0 om)
      .ok noVerdict
    | none, none => .ok noVerdict

/-- The missing-list contents stated by the spec: one entry per new-menu
seed absent from the old table and per non-identity column, carrying the
estimated value `None`. -/
def missingSpec (old : PsTable) (menu : List (Str × Int)) : List MissingEntry :=
  menu.flatMap (fun si =>
    if (old.rows.find? (fun r =>
        cellAt r (old.cols.indexOf "Name".data) == Cell.str si.1)).isSome then []
    else
      (old.cols.filter (fun c => c ≠ "Index".data ∧ c ≠ "Name".data)).map
        (fun c => (si.2, si.1, colPretty c, (none : Option Cell))))

end PSGen

namespace PSGen

/-! # Theorems -/

/-- Strict comparison of decimal values is irreflexive. -/
theorem Dec.lt_irrefl (a : Dec) : Dec.lt a a = false := by
  simp [Dec.lt]

/-- C2: under default options with equal nonzero prescales, `criterion_pT`
flags `L1_SingleJet180` as a backup of `L1_SingleJet140` and
`L1_DoubleJet90_120` as a backup of `L1_DoubleJet80_100`, but not of
`L1_DoubleJet100_80` (mixed dominance). -/
theorem c2_pT_dominance :
    criterion_pT "L1_SingleJet180".data 1 "L1_SingleJet140".data 1 false true false
      = .ok (true, some "L1_SingleJet140".data, some "pT".data) ∧
    criterion_pT "L1_DoubleJet90_120".data 1 "L1_DoubleJet80_100".data 1 false true false
      = .ok (true, some "L1_DoubleJet80_100".data, some "pT".data) ∧
    criterion_pT "L1_DoubleJet90_120".data 1 "L1_DoubleJet100_80".data 1 false true false
      = .ok (false, none, none) := by
  refine ⟨by decide, by decide, by decide⟩

/-- C3: under default options with equal nonzero prescales,
`criterion_quality` flags `L1_SingleMu22` (implicit SQ) as a backup of
`L1_SingleMu22_OQ`, and `L1_DoubleMu15_SQ` as a backup of both
`L1_DoubleMu15` (implicit DQ) and `L1_DoubleMu15_OQ`. -/
theorem c3_quality_defaulting :
    criterion_quality "L1_SingleMu22".data 1 "L1_SingleMu22_OQ".data 1 false true false
      = .ok (true, some "L1_SingleMu22_OQ".data, some "muon quality".data) ∧
    criterion_quality "L1_DoubleMu15_SQ".data 1 "L1_DoubleMu15".data 1 false true false
      = .ok (true, some "L1_DoubleMu15".data, some "muon quality".data) ∧
    criterion_quality "L1_DoubleMu15_SQ".data 1 "L1_DoubleMu15_OQ".data 1 false true false
      = .ok (true, some "L1_DoubleMu15_OQ".data, some "muon quality".data) := by
  refine ⟨by decide, by decide, by decide⟩

/-- C4: whenever either seed name contains more than one eta-restriction
substring, `criterion_er` returns `(False, None, None)` for both directions
of comparison, for every pair of prescales and every option setting. -/
theorem c4_er_ambiguity_abstains (seed otherseed : Str) (p q : Int)
    (iz cp lz : Bool)
    (h : 1 < tagCount "er".data seed ∨ 1 < tagCount "er".data otherseed) :
    criterion_er seed p otherseed q iz cp lz = .ok noVerdict ∧
    criterion_er otherseed q seed p iz cp lz = .ok noVerdict := by
  constructor <;>
  · unfold criterion_er tagCriterion
    split_ifs <;> first | rfl | tauto

/-- Witness for C4 at a concrete ambiguous seed. -/
theorem c4_witness :
    (1 < tagCount "er".data "L1_Aer1er2".data ∨ 1 < tagCount "er".data "L1_B".data) ∧
    criterion_er "L1_Aer1er2".data 1 "L1_B".data 1 false true false = .ok noVerdict ∧
    criterion_er "L1_B".data 1 "L1_Aer1er2".data 1 false true false = .ok noVerdict := by
  refine ⟨Or.inl (by decide), ?_⟩
  exact c4_er_ambiguity_abstains "L1_Aer1er2".data "L1_B".data 1 1 false true false
    (Or.inl (by decide))

end PSGen

namespace PSGen

/-- Irreflexivity of the shared tightness decision table. -/
theorem tightBackup_self (cmp : Dec → Dec → Bool) (h : ∀ a, cmp a a = false)
    (v : Option Dec) : tightBackup cmp v v = false := by
  cases v with
  | none => rfl
  | some a => simp [tightBackup, h]

/-- Verdicts built from a false flag are the all-negative verdict. -/
theorem mkVerdict_false (o nm : Str) : mkVerdict o nm false = noVerdict := rfl

/-- The common tag-criterion body never flags a seed against itself. -/
theorem tagCriterion_self (tag nm : Str) (cmp : Dec → Dec → Bool)
    (h : ∀ a, cmp a a = false) (s : Str) (p : Int) (iz cp lz : Bool) :
    tagCriterion tag nm cmp s p s p iz cp lz = noVerdict := by
  unfold tagCriterion
  split_ifs <;> first | rfl | rw [tightBackup_self cmp h, mkVerdict_false]

/-- The isolation decision table never flags equal extractions. -/
theorem isoBackup_self (v : Option Str) : isoBackup v v = false := by
  cases v with
  | none => rfl
  | some a =>
    simp only [isoBackup]
    exact decide_eq_false (fun hh => by
      have h2 := hh.1 ▸ hh.2
      exact absurd h2 (by decide))

end PSGen

namespace PSGen

/-- First-block dominance is irreflexive. -/
theorem twoDom_self (x y : Option Dec) : twoDom x y x y = false := by
  cases x <;> cases y <;> simp [twoDom, Dec.lt_irrefl]

/-- Three-component dominance is irreflexive. -/
theorem threeDom_self (x y z : Option Dec) : threeDom x y z x y z = false := by
  cases x <;> cases y <;> cases z <;> simp [threeDom, Dec.lt_irrefl]

/-- Four-component dominance is irreflexive. -/
theorem fourDom_self (x y z w : Option Dec) : fourDom x y z w x y z w = false := by
  cases x <;> cases y <;> cases z <;> cases w <;> simp [fourDom, Dec.lt_irrefl]

/-- The single-object pT test never flags a seed against itself. -/
theorem ptSingleVerdict_self (b s : Str) (lz : Bool) :
    ptSingleVerdict b s s lz = false := by
  unfold ptSingleVerdict
  rcases h : singleStrip b s with ⟨ss, st⟩
  simp only [h]
  split_ifs
  · rfl
  · cases st <;> simp [Dec.lt_irrefl]

/-- The double-object pT test never flags a seed against itself. -/
theorem ptDoubleVerdict_self (b s : Str) (lz : Bool) :
    ptDoubleVerdict b s s lz = false := by
  unfold ptDoubleVerdict
  rcases h : doubleStrip b s with ⟨ss, s1, s2⟩
  simp only [h]
  split_ifs
  · rfl
  · cases s1 <;> cases s2 <;> simp [Dec.lt_irrefl]

/-- The triple-object pT test never flags a seed against itself. -/
theorem ptTripleVerdict_self (b s : Str) (lz : Bool) :
    ptTripleVerdict b s s lz = false := by
  unfold ptTripleVerdict
  rcases h : tripleStrip b s with ⟨ss, s1, s2, s3⟩
  simp only [h]
  split_ifs <;> first | rfl | simp [twoDom_self, threeDom_self]

/-- The quadruple-object pT test never flags a seed against itself. -/
theorem ptQuadVerdict_self (b s : Str) (lz : Bool) :
    ptQuadVerdict b s s lz = false := by
  unfold ptQuadVerdict
  rcases h : quadStrip b s with ⟨ss, s1, s2, s3, s4⟩
  simp only [h]
  split_ifs <;> first | rfl | simp [fourDom_self]

/-- `criterion_prescale` never flags a seed against itself. -/
theorem criterion_prescale_self (s : Str) (p : Int) (iz cp lz : Bool) :
    criterion_prescale s p s p iz cp lz = .ok noVerdict := by
  unfold criterion_prescale
  split_ifs with h1 h2 h3
  · rfl
  · rfl
  · exact absurd h3.2 (lt_irrefl p)
  · rfl

/-- `criterion_pT` never flags a seed against itself. -/
theorem criterion_pT_self (s : Str) (p : Int) (iz cp lz : Bool) :
    criterion_pT s p s p iz cp lz = .ok noVerdict := by
  unfold criterion_pT
  split_ifs
  · rfl
  · rfl
  · cases hb : get_seed_basename s with
    | none => rfl
    | some sb =>
      simp [ptSingleVerdict_self, ptDoubleVerdict_self, ptTripleVerdict_self,
        ptQuadVerdict_self, mkVerdict, noVerdict]

/-- `criterion_er` never flags a seed against itself. -/
theorem criterion_er_self (s : Str) (p : Int) (iz cp lz : Bool) :
    criterion_er s p s p iz cp lz = .ok noVerdict := by
  unfold criterion_er
  rw [tagCriterion_self _ _ _ Dec.lt_irrefl]

/-- `criterion_dRmax` never flags a seed against itself. -/
theorem criterion_dRmax_self (s : Str) (p : Int) (iz cp lz : Bool) :
    criterion_dRmax s p s p iz cp lz = .ok noVerdict := by
  unfold criterion_dRmax
  rw [tagCriterion_self _ _ _ Dec.lt_irrefl]

/-- `criterion_dRmin` never flags a seed against itself. -/
theorem criterion_dRmin_self (s : Str) (p : Int) (iz cp lz : Bool) :
    criterion_dRmin s p s p iz cp lz = .ok noVerdict := by
  unfold criterion_dRmin
  rw [tagCriterion_self _ _ (fun a b => Dec.lt b a) (fun a => Dec.lt_irrefl a)]

/-- `criterion_isolation` never flags a seed against itself. -/
theorem criterion_isolation_self (s : Str) (p : Int) (iz cp lz : Bool) :
    criterion_isolation s p s p iz cp lz = .ok noVerdict := by
  unfold criterion_isolation
  split_ifs <;> first | rfl | rw [isoBackup_self, mkVerdict_false]

end PSGen

namespace PSGen

/-- Splitting on a separator whose first character does not occur in the
string leaves the string whole (for any fuel). -/
theorem splitGo_none (c0 : Char) (sepT : Str) (s : Str)
    (h : ∀ c ∈ s, c ≠ c0) (acc : Str) (fuel : Nat) :
    splitGo (c0 :: sepT) fuel acc s = [acc.reverse ++ s] := by
  induction fuel generalizing acc s with
  | zero => rfl
  | succ f ih =>
    cases s with
    | nil => simp [splitGo]
    | cons c rest =>
      unfold splitGo
      rw [if_neg]
      · rw [ih rest (fun x hx => h x (List.mem_cons_of_mem c hx)) (c :: acc)]
        simp
      · rintro ⟨hpre, -⟩
        simp only [startsWithS, List.isPrefixOf] at hpre
        have : c = c0 := by
          rcases Bool.and_eq_true_iff.mp hpre with ⟨h1, -⟩
          exact (beq_iff_eq.mp h1).symm
        exact h c (List.mem_cons_self c rest) this

/-- Splitting a string of the form `x ++ sep ++ y`, where the separator's
first character occurs in neither part, yields exactly the two parts. -/
theorem splitGo_once (c0 : Char) (sepT x y : Str)
    (hx : ∀ c ∈ x, c ≠ c0) (hy : ∀ c ∈ y, c ≠ c0) (acc : Str) (fuel : Nat)
    (hf : x.length < fuel) :
    splitGo (c0 :: sepT) fuel acc (x ++ (c0 :: sepT) ++ y) = [acc.reverse ++ x, y] := by
  induction x generalizing acc fuel with
  | nil =>
    cases fuel with
    | zero => omega
    | succ f =>
      show splitGo (c0 :: sepT) (f + 1) acc (c0 :: (sepT ++ y)) = _
      unfold splitGo
      rw [if_pos]
      · have hdrop : (sepT ++ y).drop ((c0 :: sepT).length - 1) = y := by
          simp [List.drop_left]
        rw [hdrop, splitGo_none c0 sepT y hy]
        simp
      · constructor
        · simp only [startsWithS, List.isPrefixOf_iff_prefix]
          exact ⟨y, by simp⟩
        · simp
  | cons c x' ih =>
    cases fuel with
    | zero => omega
    | succ f =>
      show splitGo (c0 :: sepT) (f + 1) acc (c :: (x' ++ (c0 :: sepT) ++ y)) = _
      unfold splitGo
      rw [if_neg]
      · rw [ih (fun z hz => hx z (List.mem_cons_of_mem c hz)) (c :: acc) f (by
          simp only [List.length_cons] at hf; omega)]
        simp
      · rintro ⟨hpre, -⟩
        simp only [startsWithS, List.isPrefixOf] at hpre
        have : c = c0 := by
          rcases Bool.and_eq_true_iff.mp hpre with ⟨h1, -⟩
          exact (beq_iff_eq.mp h1).symm
        exact hx c (List.mem_cons_self c x') this

/-- Digit-only strings are unchanged by the `p`-to-dot substitution. -/
theorem map_pdot_digits (l : Str) (hl : ∀ c ∈ l, c.isDigit) :
    l.map (fun c => if c = 'p' then '.' else c) = l := by
  induction l with
  | nil => rfl
  | cons c t ih =>
    have hc := hl c (List.mem_cons_self c t)
    simp only [List.map_cons]
    rw [if_neg, ih (fun x hx => hl x (List.mem_cons_of_mem c hx))]
    intro h
    rw [h] at hc
    exact absurd hc (by decide)

/-- Conversion succeeds on any nonempty digit string. -/
theorem digits_conv (d : Str) (hne : d ≠ []) (hd : ∀ c ∈ d, c.isDigit) :
    convert_to_float (some d) = some ⟨natOfDigits d, 0⟩ := by
  have hfilter : d.filter (fun c => decide (c ≠ '_')) = d := by
    apply List.filter_eq_self.mpr
    intro c hc
    have hdc := hd c hc
    simp only [decide_eq_true_eq]
    intro h
    rw [h] at hdc
    exact absurd hdc (by decide)
  have hsplit : splitOnSub d ['.'] = [d] := by
    simpa [splitOnSub] using splitGo_none '.' [] d
      (fun c hc h => by have := hd c hc; rw [h] at this; exact absurd this (by decide))
      [] (d.length + 1)
  show floatParse ((d.filter (fun c => decide (c ≠ '_'))).map
    (fun c => if c = 'p' then '.' else c)) = _
  rw [hfilter, map_pdot_digits d hd]
  simp only [floatParse, hsplit]
  rw [if_pos]
  exact ⟨by simp [List.isEmpty_iff, hne], List.all_eq_true.mpr (fun c hc => hd c hc)⟩

end PSGen

namespace PSGen

/-- `do_further_checks` is never raised when comparing a seed with itself
that carries at most one distinct quality flag. -/
theorem qualDoChecks_self (sb s : Str) (hq : atMostOneQualFlag s) :
    qualDoChecks sb s s = false := by
  rcases hq with ⟨h1, h2, h3⟩
  cases hSQ : containsS s "_SQ".data <;> cases hDQ : containsS s "_DQ".data <;>
    cases hOQ : containsS s "_OQ".data <;>
    simp_all [qualDoChecks, qualIsSQ, qualIsDQ]

/-- `criterion_quality` never flags a seed with at most one distinct quality
flag against itself. -/
theorem criterion_quality_self (s : Str) (p : Int) (iz cp lz : Bool)
    (hq : atMostOneQualFlag s) :
    criterion_quality s p s p iz cp lz = .ok noVerdict := by
  unfold criterion_quality
  split_ifs
  · rfl
  · rfl
  · cases hb : get_seed_basename s with
    | none => rfl
    | some sb =>
      dsimp only
      split_ifs
      · rw [qualDoChecks_self sb s hq]
        simp [mkVerdict, noVerdict]
      · rfl

end PSGen

namespace PSGen

/-- Any property of anchored-match results transfers to scan results. -/
theorem scanFirstF_prop {α : Type} (f : Str → Option (α × Str)) (P : α → Prop)
    (hf : ∀ s a r, f s = some (a, r) → P a) :
    ∀ fuel s a, scanFirstF f fuel s = some a → P a := by
  intro fuel
  induction fuel with
  | zero => intro s a h; simp [scanFirstF] at h
  | succ n ih =>
    intro s a h
    cases s with
    | nil => simp [scanFirstF] at h
    | cons c t =>
      unfold scanFirstF at h
      cases hm : f (c :: t) with
      | some pr =>
        rw [hm] at h
        cases h
        exact hf (c :: t) pr.1 pr.2 (by rw [hm])
      | none =>
        rw [hm] at h
        exact ih t a h

/-- The `lit(\d+)` matcher returns a nonempty digit group. -/
theorem matchLitNumAt_digits (lit s : Str) (d : Str) (r : Str)
    (h : matchLitNumAt lit s = some (d, r)) : d ≠ [] ∧ ∀ c ∈ d, c.isDigit := by
  unfold matchLitNumAt at h
  split_ifs at h
  · simp only [digitSpan] at h
    split_ifs at h with hemp
    cases h
    constructor
    · intro hnil
      rw [hnil] at hemp
      exact absurd hemp (by simp)
    · intro c hc
      exact List.mem_takeWhile_imp hc

/-- Digit groups found by `litNumSearch` are nonempty digit strings. -/
theorem litNumSearch_digits (lit s d : Str) (h : litNumSearch lit s = some d) :
    d ≠ [] ∧ ∀ c ∈ d, c.isDigit := by
  exact scanFirstF_prop (matchLitNumAt lit) (fun d => d ≠ [] ∧ ∀ c ∈ d, c.isDigit)
    (fun s a r hh => matchLitNumAt_digits lit s a r hh) (s.length + 1) s d h

/-- One pT-extra step never raises. -/
theorem pteStep_ok (st : Str × Str × Bool) (a : Str × Str) :
    ∃ st', pteStep st a = .ok st' := by
  rcases st with ⟨s, o, flag⟩
  unfold pteStep
  dsimp only
  cases hs : litNumSearch a.1 s with
  | none => exact ⟨(s, o, flag), rfl⟩
  | some sd =>
    cases ho : litNumSearch a.1 o with
    | none => exact ⟨(s, o, flag), rfl⟩
    | some od =>
      dsimp only
      rcases litNumSearch_digits a.1 s sd hs with ⟨hne, hdig⟩
      rcases litNumSearch_digits a.1 o od ho with ⟨hne', hdig'⟩
      rw [digits_conv sd hne hdig, digits_conv od hne' hdig']
      split_ifs
      · exact ⟨_, rfl⟩
      · exact ⟨_, rfl⟩

/-- One pT-extra step maps a symmetric non-flagged state to a symmetric
non-flagged state. -/
theorem pteStep_diag (x : Str) (a : Str × Str) :
    ∃ y, pteStep (x, x, false) a = .ok (y, y, false) := by
  unfold pteStep
  dsimp only
  cases hs : litNumSearch a.1 x with
  | none => exact ⟨x, rfl⟩
  | some sd =>
    dsimp only
    rcases litNumSearch_digits a.1 x sd hs with ⟨hne, hdig⟩
    rw [digits_conv sd hne hdig]
    split_ifs
    · exact ⟨_, rfl⟩
    · dsimp only
      rw [Dec.lt_irrefl]
      exact ⟨_, rfl⟩

/-- Folding the pT-extra steps over a symmetric state stays symmetric and
unflagged. -/
theorem pteFold_diag (l : List (Str × Str)) :
    ∀ x, ∃ y, l.foldlM pteStep (x, x, false) = .ok (y, y, false) := by
  induction l with
  | nil => exact fun x => ⟨x, rfl⟩
  | cons a t ih =>
    intro x
    rcases pteStep_diag x a with ⟨y, hy⟩
    rcases ih y with ⟨z, hz⟩
    refine ⟨z, ?_⟩
    rw [List.foldlM_cons, hy]
    exact hz

/-- `criterion_pT_extra` never flags a seed against itself. -/
theorem criterion_pT_extra_self (s : Str) (p : Int) (iz cp lz : Bool) :
    criterion_pT_extra s p s p iz cp lz = .ok noVerdict := by
  unfold criterion_pT_extra
  split_ifs
  · rfl
  · rfl
  · cases hb : get_seed_basename s with
    | none => rfl
    | some sb =>
      dsimp only
      rcases pteFold_diag pteAttrs (replaceAll s sb []) with ⟨y, hy⟩
      rw [show pteRun (replaceAll s sb []) (replaceAll s sb [])
        = .ok (y, y, false) from hy]
      rfl

end PSGen

namespace PSGen

/-- A nonempty digit run from `takeWhile` satisfies the token grammar. -/
theorem numTok_takeWhile (t : Str) (hne : ¬ (t.takeWhile Char.isDigit).isEmpty) :
    NumTok (t.takeWhile Char.isDigit) :=
  Or.inl ⟨fun hn => hne (by rw [hn]; rfl), fun c hc => List.mem_takeWhile_imp hc⟩

/-- Tokens produced by the number matcher satisfy the token grammar. -/
theorem matchNum_numTok (t n r : Str) (h : matchNum t = some (n, r)) : NumTok n := by
  unfold matchNum at h
  dsimp only [digitSpan] at h
  split_ifs at h with hemp
  rcases ht : t.dropWhile Char.isDigit with _ | ⟨c, t2⟩ <;> rw [ht] at h
  · cases h
    exact numTok_takeWhile t hemp
  · dsimp only at h
    split_ifs at h with hp hemp2
    · cases h
      exact numTok_takeWhile t hemp
    · cases h
      exact Or.inr ⟨t.takeWhile Char.isDigit, t2.takeWhile Char.isDigit, rfl,
        fun hn => hemp (by rw [hn]; rfl), fun hn => hemp2 (by rw [hn]; rfl),
        fun c hc => List.mem_takeWhile_imp hc, fun c hc => List.mem_takeWhile_imp hc⟩
    · cases h
      exact numTok_takeWhile t hemp

/-- The continuation after `to` preserves the first token and produces a
grammatical second token. -/
theorem massAfterTo_numTok (n1 r a b rest : Str)
    (h : massAfterTo n1 r = some (a, b, rest)) : a = n1 ∧ NumTok b := by
  unfold massAfterTo at h
  split_ifs at h
  cases hm : matchNum (r.drop 2) with
  | none => rw [hm] at h; cases h
  | some pr =>
    rw [hm] at h
    cases h
    exact ⟨rfl, matchNum_numTok _ pr.1 pr.2 (by rw [hm])⟩

/-- Both numbers extracted by the mass matcher are grammatical tokens. -/
theorem massNumsAt_numTok (t n1 n2 rest : Str)
    (h : massNumsAt t = some (n1, n2, rest)) : NumTok n1 ∧ NumTok n2 := by
  unfold massNumsAt at h
  dsimp only [digitSpan] at h
  split_ifs at h with hemp
  rcases ht : t.dropWhile Char.isDigit with _ | ⟨c, t2⟩ <;> rw [ht] at h
  · rcases massAfterTo_numTok _ _ _ _ _ h with ⟨ha, hb⟩
    exact ⟨ha ▸ numTok_takeWhile t hemp, hb⟩
  · dsimp only at h
    split_ifs at h with hp hemp2
    · rcases massAfterTo_numTok _ _ _ _ _ h with ⟨ha, hb⟩
      exact ⟨ha ▸ numTok_takeWhile t hemp, hb⟩
    · cases hm : massAfterTo (t.takeWhile Char.isDigit ++ 'p' :: t2.takeWhile Char.isDigit)
        (t2.dropWhile Char.isDigit) with
      | some res =>
        rw [hm] at h
        cases h
        rcases massAfterTo_numTok _ _ _ _ _ hm with ⟨ha, hb⟩
        refine ⟨ha ▸ ?_, hb⟩
        exact Or.inr ⟨t.takeWhile Char.isDigit, t2.takeWhile Char.isDigit, rfl,
          fun hn => hemp (by rw [hn]; rfl), fun hn => hemp2 (by rw [hn]; rfl),
          fun c hc => List.mem_takeWhile_imp hc, fun c hc => List.mem_takeWhile_imp hc⟩
      | none =>
        rw [hm] at h
        rcases massAfterTo_numTok _ _ _ _ _ h with ⟨ha, hb⟩
        exact ⟨ha ▸ numTok_takeWhile t hemp, hb⟩
    · rcases massAfterTo_numTok _ _ _ _ _ h with ⟨ha, hb⟩
      exact ⟨ha ▸ numTok_takeWhile t hemp, hb⟩

/-- The lazy-underscore scan preserves the underscore and token invariants. -/
theorem massTryU_inv : ∀ (fuel : Nat) (acc t u n1 n2 rest : Str),
    (∀ c ∈ acc, c = '_') → massTryU fuel acc t = some (u, n1, n2, rest) →
    (∀ c ∈ u, c = '_') ∧ NumTok n1 ∧ NumTok n2 := by
  intro fuel
  induction fuel with
  | zero => intro acc t u n1 n2 rest hacc h; simp [massTryU] at h
  | succ f ih =>
    intro acc t u n1 n2 rest hacc h
    unfold massTryU at h
    cases hm : massNumsAt t with
    | some res =>
      rw [hm] at h
      rcases res with ⟨a1, a2, a3⟩
      dsimp only at h
      cases h
      exact ⟨hacc, massNumsAt_numTok t _ _ _ (by rw [hm])⟩
    | none =>
      rw [hm] at h
      rcases t with _ | ⟨c, t'⟩
      · cases h
      · dsimp only at h
        split_ifs at h
        refine ih (acc ++ ['_']) t' u n1 n2 rest ?_ h
        intro x hx
        rcases List.mem_append.mp hx with hx | hx
        · exact hacc x hx
        · simpa using hx

/-- Mass-window matches decompose into underscores and two tokens. -/
theorem matchMassAt_inv (s : Str) (r : Str × Str × Str) (rest : Str)
    (h : matchMassAt s = some (r, rest)) :
    (∀ c ∈ r.1, c = '_') ∧ NumTok r.2.1 ∧ NumTok r.2.2 := by
  unfold matchMassAt at h
  split_ifs at h
  cases hm : massTryU (s.length + 1) [] (s.drop 4) with
  | none => rw [hm] at h; cases h
  | some q =>
    rw [hm] at h
    cases h
    rcases q with ⟨u, n1, n2, rr⟩
    exact massTryU_inv (s.length + 1) [] (s.drop 4) u n1 n2 rr (by simp) (by rw [hm])

/-- Every `massSearch` result decomposes into underscores and two tokens. -/
theorem massSearch_inv (s : Str) (r : Str × Str × Str) (h : massSearch s = some r) :
    (∀ c ∈ r.1, c = '_') ∧ NumTok r.2.1 ∧ NumTok r.2.2 := by
  exact scanFirstF_prop matchMassAt
    (fun r => (∀ c ∈ r.1, c = '_') ∧ NumTok r.2.1 ∧ NumTok r.2.2)
    (fun s a rr hh => matchMassAt_inv s a rr hh) (s.length + 1) s r h

end PSGen

namespace PSGen

/-- A grammatical token starts with a digit. -/
theorem numTok_head_digit (n : Str) (h : NumTok n) :
    ∃ c t, n = c :: t ∧ c.isDigit := by
  rcases h with ⟨hne, hd⟩ | ⟨d1, d2, heq, h1ne, h2ne, hd1, hd2⟩
  · rcases n with _ | ⟨c, t⟩
    · exact absurd rfl hne
    · exact ⟨c, t, rfl, hd c (List.mem_cons_self c t)⟩
  · rcases d1 with _ | ⟨c, t⟩
    · exact absurd rfl h1ne
    · exact ⟨c, t ++ 'p' :: d2, by simp [heq], hd1 c (List.mem_cons_self c t)⟩

/-- Digits are not the letter `t`. -/
theorem digit_ne_t (c : Char) (h : c.isDigit) : c ≠ 't' := by
  intro hh
  rw [hh] at h
  exact absurd h (by decide)

/-- Digits are not the dot character. -/
theorem digit_ne_dot (c : Char) (h : c.isDigit) : c ≠ '.' := by
  intro hh
  rw [hh] at h
  exact absurd h (by decide)

/-- A grammatical token contains no letter `t`. -/
theorem numTok_no_t (n : Str) (h : NumTok n) : ∀ c ∈ n, c ≠ 't' := by
  rcases h with ⟨hne, hd⟩ | ⟨d1, d2, heq, h1ne, h2ne, hd1, hd2⟩
  · exact fun c hc => digit_ne_t c (hd c hc)
  · subst heq
    intro c hc
    rcases List.mem_append.mp hc with hc | hc
    · exact digit_ne_t c (hd1 c hc)
    · rcases List.mem_cons.mp hc with hc | hc
      · subst hc; decide
      · exact digit_ne_t c (hd2 c hc)

/-- Conversion succeeds on every grammatical token. -/
theorem numTok_conv (n : Str) (h : NumTok n) :
    ∃ v, convert_to_float (some n) = some v := by
  rcases h with ⟨hne, hd⟩ | ⟨d1, d2, heq, h1ne, h2ne, hd1, hd2⟩
  · exact ⟨_, digits_conv n hne hd⟩
  · subst heq
    refine ⟨⟨natOfDigits d1 * 10 ^ d2.length + natOfDigits d2, d2.length⟩, ?_⟩
    have hfilter : (d1 ++ 'p' :: d2).filter (fun c => decide (c ≠ '_')) = d1 ++ 'p' :: d2 := by
      apply List.filter_eq_self.mpr
      intro c hc
      simp only [decide_eq_true_eq]
      intro hu
      rcases List.mem_append.mp hc with hc | hc
      · have := hd1 c hc; rw [hu] at this; exact absurd this (by decide)
      · rcases List.mem_cons.mp hc with hc | hc
        · rw [hc] at hu; exact absurd hu (by decide)
        · have := hd2 c hc; rw [hu] at this; exact absurd this (by decide)
    have hmap : (d1 ++ 'p' :: d2).map (fun c => if c = 'p' then '.' else c)
        = d1 ++ '.' :: d2 := by
      rw [List.map_append, List.map_cons, map_pdot_digits d1 hd1, map_pdot_digits d2 hd2,
        if_pos rfl]
    have hsplit : splitOnSub (d1 ++ '.' :: d2) ['.'] = [d1, d2] := by
      have := splitGo_once '.' [] d1 d2
        (fun c hc => digit_ne_dot c (hd1 c hc)) (fun c hc => digit_ne_dot c (hd2 c hc))
        [] ((d1 ++ '.' :: d2).length + 1) (by simp; omega)
      simpa [splitOnSub] using this
    show floatParse (((d1 ++ 'p' :: d2).filter (fun c => decide (c ≠ '_'))).map
      (fun c => if c = 'p' then '.' else c)) = _
    rw [hfilter, hmap]
    simp only [floatParse, hsplit]
    rw [if_pos]
    refine ⟨?_, List.all_eq_true.mpr (fun c hc => hd1 c hc),
      List.all_eq_true.mpr (fun c hc => hd2 c hc)⟩
    rintro ⟨hc1, -⟩
    rw [List.isEmpty_iff] at hc1
    exact h1ne hc1

/-- Dropping while a predicate holds on a whole first chunk skips it. -/
theorem dropWhile_all_append (p : Char → Bool) (l1 l2 : Str)
    (h : ∀ c ∈ l1, p c = true) : (l1 ++ l2).dropWhile p = l2.dropWhile p := by
  induction l1 with
  | nil => rfl
  | cons c t ih =>
    simp only [List.cons_append, List.dropWhile_cons, h c (List.mem_cons_self c t), ite_true]
    exact ih (fun x hx => h x (List.mem_cons_of_mem c hx))

/-- Range extraction succeeds on every mass-window match, yielding the two
converted tokens. -/
theorem massRange_ok (u n1 n2 : Str) (hu : ∀ c ∈ u, c = '_')
    (h1 : NumTok n1) (h2 : NumTok n2) :
    ∃ v1 v2, massRange (massG0 (u, n1, n2)) = .ok [some v1, some v2] := by
  obtain ⟨c, t, hn1, hcdig⟩ := numTok_head_digit n1 h1
  obtain ⟨v1, hv1⟩ := numTok_conv n1 h1
  obtain ⟨v2, hv2⟩ := numTok_conv n2 h2
  refine ⟨v1, v2, ?_⟩
  have hany : (massG0 (u, n1, n2)).any Char.isDigit = true := by
    apply List.any_eq_true.mpr
    exact ⟨c, by simp [massG0, hn1], hcdig⟩
  have hdrop : (massG0 (u, n1, n2)).dropWhile (fun c => !c.isDigit)
      = n1 ++ "to".data ++ n2 := by
    show ("Mass".data ++ u ++ n1 ++ "to".data ++ n2).dropWhile (fun c => !c.isDigit) = _
    rw [show "Mass".data ++ u ++ n1 ++ "to".data ++ n2
      = ("Mass".data ++ u) ++ (n1 ++ "to".data ++ n2) by simp]
    rw [dropWhile_all_append]
    · rw [show n1 ++ "to".data ++ n2 = c :: (t ++ "to".data ++ n2) by simp [hn1]]
      simp only [List.dropWhile_cons, hcdig]
      rfl
    · intro x hx
      rcases List.mem_append.mp hx with hx | hx
      · fin_cases hx <;> rfl
      · rw [hu x hx]; rfl
  have hsplit : splitOnSub (n1 ++ "to".data ++ n2) "to".data = [n1, n2] := by
    have := splitGo_once 't' ['o'] n1 n2 (numTok_no_t n1 h1) (numTok_no_t n2 h2)
      [] ((n1 ++ "to".data ++ n2).length + 1) (by simp; omega)
    simpa [splitOnSub] using this
  unfold massRange
  rw [if_pos hany, hdrop, hsplit]
  simp [hv1, hv2]

/-- Strict width comparison is irreflexive. -/
theorem WDec.lt_wirrefl (w : WDec) : WDec.lt w w = false := by
  simp [WDec.lt]

end PSGen

namespace PSGen

/-- Range extraction, packaged for an arbitrary search result. -/
theorem massSearch_range_ok (s : Str) (sm : Str × Str × Str)
    (h : massSearch s = some sm) :
    ∃ v1 v2, massRange (massG0 sm) = .ok [some v1, some v2] := by
  rcases massSearch_inv s sm h with ⟨hu, h1, h2⟩
  rcases sm with ⟨u, n1, n2⟩
  exact massRange_ok u n1 n2 hu h1 h2

/-- Width comparison never raises on two extracted ranges. -/
theorem rangeWidthLt_ok (v1 v2 w1 w2 : Dec) :
    rangeWidthLt [some v1, some v2] [some w1, some w2]
      = .ok (WDec.lt (Dec.subW v2 v1) (Dec.subW w2 w1)) := rfl

/-- `criterion_MassXtoY` never flags a seed against itself. -/
theorem criterion_MassXtoY_self (s : Str) (p : Int) (iz cp lz : Bool) :
    criterion_MassXtoY s p s p iz cp lz = .ok noVerdict := by
  unfold criterion_MassXtoY
  split_ifs <;> try rfl
  cases hm : massSearch s with
  | none => rfl
  | some sm =>
    dsimp only
    split_ifs
    · rfl
    · rcases massSearch_range_ok s sm hm with ⟨v1, v2, hr⟩
      rw [hr]
      show Except.ok (mkVerdict s "MassXtoY".data
        (WDec.lt (Dec.subW v2 v1) (Dec.subW v2 v1))) = Except.ok noVerdict
      rw [WDec.lt_wirrefl]
      rfl

/-- `criterion_MassXtoY` never raises. -/
theorem criterion_MassXtoY_ok (seed : Str) (p : Int) (otherseed : Str) (q : Int)
    (iz cp lz : Bool) :
    ∃ v, criterion_MassXtoY seed p otherseed q iz cp lz = .ok v := by
  unfold criterion_MassXtoY
  split_ifs <;> try exact ⟨_, rfl⟩
  cases hs : massSearch seed with
  | none =>
    cases ho : massSearch otherseed with
    | none => exact ⟨_, rfl⟩
    | some om =>
      dsimp only
      split_ifs
      · exact ⟨_, rfl⟩
      · rcases massSearch_range_ok otherseed om ho with ⟨v1, v2, hr⟩
        rw [hr]
        exact ⟨_, rfl⟩
  | some sm =>
    cases ho : massSearch otherseed with
    | none =>
      dsimp only
      split_ifs
      · exact ⟨_, rfl⟩
      · rcases massSearch_range_ok seed sm hs with ⟨v1, v2, hr⟩
        rw [hr]
        exact ⟨_, rfl⟩
    | some om =>
      dsimp only
      split_ifs
      · exact ⟨_, rfl⟩
      · rcases massSearch_range_ok seed sm hs with ⟨v1, v2, hr⟩
        rcases massSearch_range_ok otherseed om ho with ⟨w1, w2, hr'⟩
        rw [hr, hr']
        exact ⟨_, rfl⟩

end PSGen

namespace PSGen

/-- A fold of non-raising steps never raises. -/
theorem foldlM_ok {σ α : Type} (f : σ → α → Except PyErr σ)
    (h : ∀ st a, ∃ st', f st a = .ok st') (l : List α) :
    ∀ init, ∃ r, l.foldlM f init = .ok r := by
  induction l with
  | nil => exact fun init => ⟨init, rfl⟩
  | cons a t ih =>
    intro init
    rcases h init a with ⟨st', hst⟩
    rcases ih st' with ⟨r, hr⟩
    refine ⟨r, ?_⟩
    rw [List.foldlM_cons, hst]
    exact hr

/-- `criterion_pT_extra` never raises. -/
theorem criterion_pT_extra_ok (seed : Str) (p : Int) (otherseed : Str) (q : Int)
    (iz cp lz : Bool) :
    ∃ v, criterion_pT_extra seed p otherseed q iz cp lz = .ok v := by
  unfold criterion_pT_extra
  split_ifs <;> try exact ⟨_, rfl⟩
  cases hb : get_seed_basename seed with
  | none => exact ⟨_, rfl⟩
  | some sb =>
    cases ho : get_seed_basename otherseed with
    | none => exact ⟨_, rfl⟩
    | some ob =>
      dsimp only
      rcases foldlM_ok pteStep pteStep_ok pteAttrs
        (replaceAll seed sb [], replaceAll otherseed ob [], false) with ⟨r, hr⟩
      rw [show pteRun (replaceAll seed sb []) (replaceAll otherseed ob [])
        = .ok r from hr]
      exact ⟨_, rfl⟩

/-- None of the nine criterion functions ever raises. -/
theorem criterionFunctions_ok (c : CritFun) (hc : c ∈ criterionFunctions)
    (seed : Str) (p : Int) (otherseed : Str) (q : Int) (iz cp lz : Bool) :
    ∃ v, c seed p otherseed q iz cp lz = .ok v := by
  simp only [criterionFunctions, List.mem_cons, List.not_mem_nil, or_false] at hc
  rcases hc with h|h|h|h|h|h|h|h|h <;> subst h
  · exact ⟨_, rfl⟩
  · exact ⟨_, rfl⟩
  · exact criterion_pT_extra_ok seed p otherseed q iz cp lz
  · exact ⟨_, rfl⟩
  · exact ⟨_, rfl⟩
  · exact ⟨_, rfl⟩
  · exact criterion_MassXtoY_ok seed p otherseed q iz cp lz
  · exact ⟨_, rfl⟩
  · exact ⟨_, rfl⟩

/-- C6: for every pair of seed-name strings, every pair of integer
prescales, and every option setting, no criterion function raises an
exception: each returns a verdict value (malformed and ambiguous segments
included). -/
theorem c6_no_criterion_raises (seed : Str) (p : Int) (otherseed : Str)
    (q : Int) (iz cp lz : Bool) :
    ∀ c ∈ criterionFunctions, ∃ v, c seed p otherseed q iz cp lz = .ok v :=
  fun c hc => criterionFunctions_ok c hc seed p otherseed q iz cp lz

/-- Witness for C6 at a malformed mass seed. -/
theorem c6_witness :
    ∃ v, criterion_MassXtoY "L1_Mass_10to20".data 1 "L1_Massto5".data 1
      false true false = .ok v :=
  c6_no_criterion_raises "L1_Mass_10to20".data 1 "L1_Massto5".data 1
    false true false criterion_MassXtoY (by simp [criterionFunctions])

/-- C10 (amended): every criterion except the muon-quality one never flags a
seed against itself (same name and prescale on both sides), for every option
setting; the muon-quality criterion is likewise irreflexive provided the
seed name carries at most one distinct quality flag. -/
theorem c10_amended_irreflexivity :
    (∀ c ∈ [criterion_prescale, criterion_pT, criterion_pT_extra, criterion_er,
        criterion_dRmax, criterion_dRmin, criterion_MassXtoY, criterion_isolation],
      ∀ (s : Str) (p : Int) (iz cp lz : Bool), c s p s p iz cp lz = .ok noVerdict) ∧
    (∀ (s : Str) (p : Int) (iz cp lz : Bool), atMostOneQualFlag s →
      criterion_quality s p s p iz cp lz = .ok noVerdict) := by
  constructor
  · intro c hc s p iz cp lz
    simp only [List.mem_cons, List.not_mem_nil, or_false] at hc
    rcases hc with h|h|h|h|h|h|h|h <;> subst h
    · exact criterion_prescale_self s p iz cp lz
    · exact criterion_pT_self s p iz cp lz
    · exact criterion_pT_extra_self s p iz cp lz
    · exact criterion_er_self s p iz cp lz
    · exact criterion_dRmax_self s p iz cp lz
    · exact criterion_dRmin_self s p iz cp lz
    · exact criterion_MassXtoY_self s p iz cp lz
    · exact criterion_isolation_self s p iz cp lz
  · exact fun s p iz cp lz hq => criterion_quality_self s p iz cp lz hq

/-- C10 counterexample: `criterion_quality` flags the seed
`L1_SingleMu5_SQ_DQ` — which carries two quality flags — as a backup of
itself, refuting irreflexivity for every criterion as originally stated. -/
theorem c10_counterexample :
    criterion_quality "L1_SingleMu5_SQ_DQ".data 1 "L1_SingleMu5_SQ_DQ".data 1
      false true false
      = .ok (true, some "L1_SingleMu5_SQ_DQ".data, some "muon quality".data) := by
  decide

/-- Witness for C10 at concrete seeds. -/
theorem c10_witness :
    criterion_prescale "L1_X5".data 2 "L1_X5".data 2 false true false = .ok noVerdict ∧
    criterion_quality "L1_SingleMu7".data 2 "L1_SingleMu7".data 2 false true false
      = .ok noVerdict := by
  constructor
  · exact c10_amended_irreflexivity.1 criterion_prescale (by simp) "L1_X5".data 2
      false true false
  · exact c10_amended_irreflexivity.2 "L1_SingleMu7".data 2 false true false
      ⟨by decide, by decide, by decide⟩

end PSGen

namespace PSGen

/-- With `lazy` unset, a positive tag-criterion verdict forces equal
residuals. -/
theorem tagCriterion_resid (tag nm : Str) (cmp : Dec → Dec → Bool) (s o : Str)
    (p q : Int) (iz cp : Bool) (v : Verdict)
    (h : tagCriterion tag nm cmp s p o q iz cp false = v) (hb : v.1 = true) :
    (tagStrip tag s).1 = (tagStrip tag o).1 := by
  subst h
  unfold tagCriterion at hb
  split_ifs at hb with h1 h2 h3 h4 h5
  · exact absurd hb (by simp [noVerdict])
  · exact absurd hb (by simp [noVerdict])
  · exact absurd hb (by simp [noVerdict])
  · exact absurd hb (by simp [noVerdict])
  · exact absurd hb (by simp [noVerdict])
  · by_contra hne
    exact h5 ⟨by simp, hne⟩

/-- With `lazy` unset, a positive isolation verdict forces equal residuals. -/
theorem isolation_resid (s o : Str) (p q : Int) (iz cp : Bool) (v : Verdict)
    (h : criterion_isolation s p o q iz cp false = .ok v) (hb : v.1 = true) :
    (isoStrip s).1 = (isoStrip o).1 := by
  unfold criterion_isolation at h
  rcases h with ⟨⟩
  split_ifs at hb with h1 h2 h3 h4 h5
  · exact absurd hb (by simp [noVerdict])
  · exact absurd hb (by simp [noVerdict])
  · exact absurd hb (by simp [noVerdict])
  · exact absurd hb (by simp [noVerdict])
  · exact absurd hb (by simp [noVerdict])
  · by_contra hne
    exact h5 ⟨by simp, hne⟩

end PSGen

namespace PSGen

/-- With `lazy` unset, a positive mass verdict forces equal residuals. -/
theorem mass_resid (s o : Str) (p q : Int) (iz cp : Bool) (v : Verdict)
    (h : criterion_MassXtoY s p o q iz cp false = .ok v) (hb : v.1 = true) :
    massResidOf s = massResidOf o := by
  unfold criterion_MassXtoY at h
  split_ifs at h with h1 h2 h3 h4
  · rcases h with ⟨⟩; exact absurd hb (by simp [noVerdict])
  · rcases h with ⟨⟩; exact absurd hb (by simp [noVerdict])
  · rcases h with ⟨⟩; exact absurd hb (by simp [noVerdict])
  · rcases h with ⟨⟩; exact absurd hb (by simp [noVerdict])
  · unfold massResidOf
    cases hs : massSearch s <;> cases ho : massSearch o <;> rw [hs, ho] at h <;>
      dsimp only at h
    · rcases h with ⟨⟩; exact absurd hb (by simp [noVerdict])
    · split_ifs at h with hr
      · rcases h with ⟨⟩; exact absurd hb (by simp [noVerdict])
      · by_contra hne
        exact hr ⟨by simp, hne⟩
    · split_ifs at h with hr
      · rcases h with ⟨⟩; exact absurd hb (by simp [noVerdict])
      · by_contra hne
        exact hr ⟨by simp, hne⟩
    · split_ifs at h with hr
      · rcases h with ⟨⟩; exact absurd hb (by simp [noVerdict])
      · by_contra hne
        exact hr ⟨by simp, hne⟩

/-- A positive single-object pT test with `lazy` unset forces equal
residuals. -/
theorem ptSingleVerdict_resid (b x y : Str)
    (h : ptSingleVerdict b x y false = true) :
    (singleStrip b x).1 = (singleStrip b y).1 := by
  unfold ptSingleVerdict at h
  rcases hx : singleStrip b x with ⟨ss, st⟩
  rcases hy : singleStrip b y with ⟨os, ot⟩
  rw [hx, hy] at h
  dsimp only at h ⊢
  by_contra hne
  rw [if_pos ⟨by simp, hne⟩] at h
  exact absurd h (by simp)

/-- A positive double-object pT test with `lazy` unset forces equal
residuals. -/
theorem ptDoubleVerdict_resid (b x y : Str)
    (h : ptDoubleVerdict b x y false = true) :
    (doubleStrip b x).1 = (doubleStrip b y).1 := by
  unfold ptDoubleVerdict at h
  rcases hx : doubleStrip b x with ⟨ss, st⟩
  rcases hy : doubleStrip b y with ⟨os, ot⟩
  rw [hx, hy] at h
  dsimp only at h ⊢
  by_contra hne
  rw [if_pos ⟨by simp, hne⟩] at h
  exact absurd h (by simp)

/-- A positive triple-object pT test forces equal residuals for every value
of `lazy` (the first residual check in the source ignores the option). -/
theorem ptTripleVerdict_resid (b x y : Str) (lz : Bool)
    (h : ptTripleVerdict b x y lz = true) :
    (tripleStrip b x).1 = (tripleStrip b y).1 := by
  unfold ptTripleVerdict at h
  rcases hx : tripleStrip b x with ⟨ss, s1, s2, s3⟩
  rcases hy : tripleStrip b y with ⟨os, o1, o2, o3⟩
  rw [hx, hy] at h
  dsimp only at h ⊢
  by_contra hne
  rw [if_pos hne] at h
  exact absurd h (by simp)

/-- A positive quadruple-object pT test with `lazy` unset forces equal
residuals. -/
theorem ptQuadVerdict_resid (b x y : Str)
    (h : ptQuadVerdict b x y false = true) :
    (quadStrip b x).1 = (quadStrip b y).1 := by
  unfold ptQuadVerdict at h
  rcases hx : quadStrip b x with ⟨ss, s1, s2, s3, s4⟩
  rcases hy : quadStrip b y with ⟨os, o1, o2, o3, o4⟩
  rw [hx, hy] at h
  dsimp only at h ⊢
  by_contra hne
  rw [if_pos ⟨by simp, hne⟩] at h
  exact absurd h (by simp)

end PSGen

namespace PSGen

/-- With `lazy` unset, a positive `criterion_pT` verdict forces equal
residuals (computed with the first seed's basename and branch). -/
theorem criterion_pT_resid (s : Str) (p : Int) (o : Str) (q : Int)
    (iz cp : Bool) (v : Verdict)
    (h : criterion_pT s p o q iz cp false = .ok v) (hb : v.1 = true) :
    ptResid s s = ptResid s o := by
  unfold criterion_pT at h
  split_ifs at h with h1 h2
  · rcases h with ⟨⟩; exact absurd hb (by simp [noVerdict])
  · rcases h with ⟨⟩; exact absurd hb (by simp [noVerdict])
  · cases hbn : get_seed_basename s with
    | none =>
      rw [hbn] at h
      cases ho : get_seed_basename o <;> rw [ho] at h <;> dsimp only at h <;>
        rcases h with ⟨⟩ <;> exact absurd hb (by simp [noVerdict])
    | some sb =>
      rw [hbn] at h
      cases ho : get_seed_basename o with
      | none =>
        rw [ho] at h
        dsimp only at h
        rcases h with ⟨⟩
        exact absurd hb (by simp [noVerdict])
      | some ob =>
        rw [ho] at h
        dsimp only at h
        rcases h with ⟨⟩
        unfold ptResid
        rw [hbn]
        dsimp only
        simp only [mkVerdict] at hb
        split_ifs at hb ⊢ with c1 c2 c3 c4
        · exact ptDoubleVerdict_resid sb s o hb
        · exact ptTripleVerdict_resid sb s o false hb
        · exact ptQuadVerdict_resid sb s o hb
        · exact ptSingleVerdict_resid sb s o hb

/-- One pT-extra step preserves the invariant that a raised flag implies
equal stripped names. -/
theorem pteStep_sym (s o : Str) (flag : Bool) (a : Str × Str)
    (s' o' : Str) (flag' : Bool)
    (h : pteStep (s, o, flag) a = .ok (s', o', flag'))
    (hinv : flag = true → s = o) : flag' = true → s' = o' := by
  unfold pteStep at h
  dsimp only at h
  cases hs : litNumSearch a.1 s with
  | none =>
    rw [hs] at h
    rcases h with ⟨⟩
    exact fun hf => hinv hf
  | some sd =>
    rw [hs] at h
    cases ho : litNumSearch a.1 o with
    | none =>
      rw [ho] at h
      rcases h with ⟨⟩
      exact fun hf => hinv hf
    | some od =>
      rw [ho] at h
      dsimp only at h
      split_ifs at h with hne
      · rcases h with ⟨⟩
        intro hf
        have hso := hinv hf
        subst hso
        rw [hs] at ho
        rcases ho with ⟨⟩
        rfl
      · cases hc1 : convert_to_float (some sd) <;> rw [hc1] at h <;>
          cases hc2 : convert_to_float (some od) <;> rw [hc2] at h <;>
          dsimp only at h
        · cases h
        · cases h
        · cases h
        · rcases h with ⟨⟩
          intro _
          exact not_ne_iff.mp hne

/-- The pT-extra fold preserves the flag/residual invariant. -/
theorem pteFold_sym (l : List (Str × Str)) :
    ∀ (s o : Str) (flag : Bool) (st' : Str × Str × Bool),
    l.foldlM pteStep (s, o, flag) = .ok st' → (flag = true → s = o) →
    st'.2.2 = true → st'.1 = st'.2.1 := by
  induction l with
  | nil =>
    intro s o flag st' h hinv
    rcases h with ⟨⟩
    exact hinv
  | cons a t ih =>
    intro s o flag st' h hinv
    rw [List.foldlM_cons] at h
    cases hstep : pteStep (s, o, flag) a with
    | error e => rw [hstep] at h; cases h
    | ok st1 =>
      rw [hstep] at h
      rcases st1 with ⟨s1, o1, f1⟩
      exact ih s1 o1 f1 st' h (pteStep_sym s o flag a s1 o1 f1 hstep hinv)

/-- A positive pT-extra run ends with equal stripped names, for every input
and in particular regardless of the `lazy` option (which the criterion
ignores): the residual-equality requirement is enforced, not skipped. -/
theorem pteRun_resid (x y fs fo : Str) (h : pteRun x y = .ok (fs, fo, true)) :
    fs = fo := by
  exact pteFold_sym pteAttrs x y false (fs, fo, true) h (by simp) rfl

end PSGen

namespace PSGen

/-- With `lazy` set, the tag-criterion body equals its check-free variant. -/
theorem tagCriterion_lazy (tag nm : Str) (cmp : Dec → Dec → Bool) (s o : Str)
    (p q : Int) (iz cp : Bool) :
    tagCriterion tag nm cmp s p o q iz cp true
      = tagCriterionLazySpec tag nm cmp s p o q iz cp := by
  unfold tagCriterion tagCriterionLazySpec
  split_ifs <;> first | rfl | simp_all

/-- With `lazy` set, `criterion_er` skips the residual-equality check. -/
theorem criterion_er_lazy (s : Str) (p : Int) (o : Str) (q : Int) (iz cp : Bool) :
    criterion_er s p o q iz cp true
      = .ok (tagCriterionLazySpec "er".data "eta restriction".data Dec.lt s p o q iz cp) := by
  unfold criterion_er
  rw [tagCriterion_lazy]

/-- With `lazy` set, `criterion_dRmax` skips the residual-equality check. -/
theorem criterion_dRmax_lazy (s : Str) (p : Int) (o : Str) (q : Int) (iz cp : Bool) :
    criterion_dRmax s p o q iz cp true
      = .ok (tagCriterionLazySpec "dR_Max".data "dR_Max".data Dec.lt s p o q iz cp) := by
  unfold criterion_dRmax
  rw [tagCriterion_lazy]

/-- With `lazy` set, `criterion_dRmin` skips the residual-equality check. -/
theorem criterion_dRmin_lazy (s : Str) (p : Int) (o : Str) (q : Int) (iz cp : Bool) :
    criterion_dRmin s p o q iz cp true
      = .ok (tagCriterionLazySpec "dR_Min".data "dR_Min".data (fun a b => Dec.lt b a)
          s p o q iz cp) := by
  unfold criterion_dRmin
  rw [tagCriterion_lazy]

/-- With `lazy` set, `criterion_isolation` skips the residual-equality
check. -/
theorem criterion_isolation_lazy (s : Str) (p : Int) (o : Str) (q : Int) (iz cp : Bool) :
    criterion_isolation s p o q iz cp true = .ok (isoLazySpec s p o q iz cp) := by
  unfold criterion_isolation isoLazySpec
  split_ifs <;> first | rfl | simp_all

/-- With `lazy` set, `criterion_MassXtoY` skips the residual-equality
check. -/
theorem criterion_MassXtoY_lazy (s : Str) (p : Int) (o : Str) (q : Int) (iz cp : Bool) :
    criterion_MassXtoY s p o q iz cp true = massLazySpec s p o q iz cp := by
  unfold criterion_MassXtoY massLazySpec
  split_ifs <;> rfl

end PSGen

namespace PSGen

/-- C5 (amended): with `lazy` unset, a backup verdict of any dimension
criterion (pT, pT-extra, eta restriction, dR-max, dR-min, mass window,
isolation) implies that the two names are equal after that criterion's
segment stripping; with `lazy` set, the eta-restriction, dR-max, dR-min,
mass-window and isolation criteria skip the residual-equality check, but
`criterion_pT_extra` enforces it for every option value (it ignores `lazy`),
and `criterion_pT`'s triple-object branch enforces it unconditionally. -/
theorem c5_amended_residual_equality :
    (∀ (s : Str) (p : Int) (o : Str) (q : Int) (iz cp : Bool) (v : Verdict),
      criterion_pT s p o q iz cp false = .ok v → v.1 = true →
        ptResid s s = ptResid s o) ∧
    (∀ (s : Str) (p : Int) (o : Str) (q : Int) (iz cp : Bool) (v : Verdict),
      criterion_er s p o q iz cp false = .ok v → v.1 = true →
        (tagStrip "er".data s).1 = (tagStrip "er".data o).1) ∧
    (∀ (s : Str) (p : Int) (o : Str) (q : Int) (iz cp : Bool) (v : Verdict),
      criterion_dRmax s p o q iz cp false = .ok v → v.1 = true →
        (tagStrip "dR_Max".data s).1 = (tagStrip "dR_Max".data o).1) ∧
    (∀ (s : Str) (p : Int) (o : Str) (q : Int) (iz cp : Bool) (v : Verdict),
      criterion_dRmin s p o q iz cp false = .ok v → v.1 = true →
        (tagStrip "dR_Min".data s).1 = (tagStrip "dR_Min".data o).1) ∧
    (∀ (s : Str) (p : Int) (o : Str) (q : Int) (iz cp : Bool) (v : Verdict),
      criterion_MassXtoY s p o q iz cp false = .ok v → v.1 = true →
        massResidOf s = massResidOf o) ∧
    (∀ (s : Str) (p : Int) (o : Str) (q : Int) (iz cp : Bool) (v : Verdict),
      criterion_isolation s p o q iz cp false = .ok v → v.1 = true →
        (isoStrip s).1 = (isoStrip o).1) ∧
    (∀ (s : Str) (p : Int) (o : Str) (q : Int) (iz cp : Bool),
      criterion_er s p o q iz cp true
        = .ok (tagCriterionLazySpec "er".data "eta restriction".data Dec.lt
            s p o q iz cp)) ∧
    (∀ (s : Str) (p : Int) (o : Str) (q : Int) (iz cp : Bool),
      criterion_dRmax s p o q iz cp true
        = .ok (tagCriterionLazySpec "dR_Max".data "dR_Max".data Dec.lt s p o q iz cp)) ∧
    (∀ (s : Str) (p : Int) (o : Str) (q : Int) (iz cp : Bool),
      criterion_dRmin s p o q iz cp true
        = .ok (tagCriterionLazySpec "dR_Min".data "dR_Min".data
            (fun a b => Dec.lt b a) s p o q iz cp)) ∧
    (∀ (s : Str) (p : Int) (o : Str) (q : Int) (iz cp : Bool),
      criterion_MassXtoY s p o q iz cp true = massLazySpec s p o q iz cp) ∧
    (∀ (s : Str) (p : Int) (o : Str) (q : Int) (iz cp : Bool),
      criterion_isolation s p o q iz cp true = .ok (isoLazySpec s p o q iz cp)) ∧
    (∀ (x y fs fo : Str), pteRun x y = .ok (fs, fo, true) → fs = fo) ∧
    (∀ (b x y : Str) (lz : Bool), ptTripleVerdict b x y lz = true →
      (tripleStrip b x).1 = (tripleStrip b y).1) := by
  refine ⟨?_, ?_, ?_, ?_, ?_, ?_, ?_, ?_, ?_, ?_, ?_, ?_, ?_⟩
  · exact fun s p o q iz cp v h hb => criterion_pT_resid s p o q iz cp v h hb
  · intro s p o q iz cp v h hb
    refine tagCriterion_resid "er".data "eta restriction".data Dec.lt s o p q iz cp v ?_ hb
    unfold criterion_er at h
    exact Except.ok.inj h
  · intro s p o q iz cp v h hb
    refine tagCriterion_resid "dR_Max".data "dR_Max".data Dec.lt s o p q iz cp v ?_ hb
    unfold criterion_dRmax at h
    exact Except.ok.inj h
  · intro s p o q iz cp v h hb
    refine tagCriterion_resid "dR_Min".data "dR_Min".data (fun a b => Dec.lt b a)
      s o p q iz cp v ?_ hb
    unfold criterion_dRmin at h
    exact Except.ok.inj h
  · exact fun s p o q iz cp v h hb => mass_resid s o p q iz cp v h hb
  · exact fun s p o q iz cp v h hb => isolation_resid s o p q iz cp v h hb
  · exact fun s p o q iz cp => criterion_er_lazy s p o q iz cp
  · exact fun s p o q iz cp => criterion_dRmax_lazy s p o q iz cp
  · exact fun s p o q iz cp => criterion_dRmin_lazy s p o q iz cp
  · exact fun s p o q iz cp => criterion_MassXtoY_lazy s p o q iz cp
  · exact fun s p o q iz cp => criterion_isolation_lazy s p o q iz cp
  · exact fun x y fs fo h => pteRun_resid x y fs fo h
  · exact fun b x y lz h => ptTripleVerdict_resid b x y lz h

/-- C5 counterexample: with `lazy` set, `criterion_pT_extra` still rejects a
pair whose names differ beyond the embedded threshold — the
residual-equality check is not skipped — while the same pair with matching
residuals is accepted. -/
theorem c5_counterexample :
    criterion_pT_extra "L1_Mu5_ETMHF90_A".data 1 "L1_Mu5_ETMHF80_B".data 1
      false true true = .ok (false, none, none) ∧
    criterion_pT_extra "L1_Mu5_ETMHF90_A".data 1 "L1_Mu5_ETMHF80_A".data 1
      false true true
      = .ok (true, some "L1_Mu5_ETMHF80_A".data, some "pT".data) := by
  refine ⟨by decide, by decide⟩

/-- Witness for C5 at a concrete backup pair. -/
theorem c5_witness :
    (tagStrip "er".data "L1_Muer1p5".data).1 = (tagStrip "er".data "L1_Muer2p0".data).1 :=
  c5_amended_residual_equality.2.1 "L1_Muer1p5".data 1 "L1_Muer2p0".data 1 false true
    (true, some "L1_Muer2p0".data, some "eta restriction".data) (by decide) rfl

end PSGen

namespace PSGen

/-- C7 counterexample: a table whose first two columns are tied for the
maximal count of `L1_` names — so that more than one column qualifies as the
seed-name column — does not produce a fatal error; the first column is
returned. -/
theorem c7_counterexample :
    get_name_col_idx ["A".data, "B".data, "PS".data]
      [[Cell.str "L1_x".data, Cell.str "L1_y".data, Cell.int 1]] = .ok 0 := by
  decide

/-- C7 (amended): the prescale-column identification fails exactly when the
number of columns named `prescale`/`ps` (case-insensitively) differs from
one, and otherwise returns the unique such index; the seed-name-column
identification fails exactly when no column contains any `L1_` string, and
otherwise returns the first column attaining the maximal count — ties are
resolved to the first column, not treated as errors. -/
theorem c7_amended_column_identification :
    (∀ cols : List Str,
      ((cols.map (fun c => decide (lowerStr c = "prescale".data
          ∨ lowerStr c = "ps".data))).count true ≠ 1 →
        get_PS_col_idx cols = .error .runtimeError) ∧
      ((cols.map (fun c => decide (lowerStr c = "prescale".data
          ∨ lowerStr c = "ps".data))).count true = 1 →
        get_PS_col_idx cols = .ok ((cols.map (fun c => decide (lowerStr c = "prescale".data
          ∨ lowerStr c = "ps".data))).indexOf true))) ∧
    (∀ (cols : List Str) (rows : List Row),
      ((nameColCounts cols rows).all (fun c => c = 0) = true →
        get_name_col_idx cols rows = .error .runtimeError) ∧
      ((nameColCounts cols rows).all (fun c => c = 0) = false →
        get_name_col_idx cols rows
          = .ok ((nameColCounts cols rows).indexOf
              ((nameColCounts cols rows).foldr max 0)))) := by
  constructor
  · intro cols
    constructor
    · intro h
      unfold get_PS_col_idx
      rw [if_pos h]
    · intro h
      unfold get_PS_col_idx
      rw [if_neg (by omega)]
  · intro cols rows
    constructor
    · intro h
      unfold get_name_col_idx
      rw [if_pos h]
    · intro h
      unfold get_name_col_idx
      rw [if_neg]
      simp [h]

/-- Witness for C7 at a concrete table. -/
theorem c7_witness :
    get_PS_col_idx ["Name".data, "PS".data] = .ok 1 ∧
    get_name_col_idx ["Name".data, "PS".data]
      [[Cell.str "L1_x".data, Cell.int 1]] = .ok 0 := by
  constructor
  · exact ((c7_amended_column_identification.1 ["Name".data, "PS".data]).2
      (by decide)).trans (by decide)
  · exact ((c7_amended_column_identification.2 ["Name".data, "PS".data]
      [[Cell.str "L1_x".data, Cell.int 1]]).2 (by decide)).trans (by decide)

end PSGen

namespace PSGen

/-- One regeneration step appends exactly the spec's missing entries for one
column. -/
theorem regenStep_spec (old : PsTable) (hname : "Name".data ∈ old.cols)
    (seed : Str) (idx : Int) (col : Str) (hcol : col ∈ old.cols)
    (acc : List (Str × Option Cell) × List MissingEntry) :
    ∃ nd, regenStep old seed idx acc col = .ok (nd, acc.2 ++
      (if (old.rows.find? (fun r =>
          cellAt r (old.cols.indexOf "Name".data) == Cell.str seed)).isSome then []
       else if col = "Index".data ∨ col = "Name".data then []
       else [(idx, seed, colPretty col, (none : Option Cell))])) := by
  cases hf : old.rows.find? (fun r =>
      cellAt r (old.cols.indexOf "Name".data) == Cell.str seed) with
  | some r =>
    simp only [hf, Option.isSome_some, if_true, List.append_nil]
    unfold regenStep
    split_ifs with h1 h2
    · exact ⟨_, rfl⟩
    · exact ⟨_, rfl⟩
    · unfold find_table_value
      rw [if_neg (fun hn => hn hname), hf]
      dsimp only
      rw [if_pos hcol]
      exact ⟨_, rfl⟩
  | none =>
    simp only [hf, Option.isSome_none, Bool.false_eq_true, if_false]
    unfold regenStep
    by_cases h1 : col = "Index".data
    · rw [if_pos h1, if_pos (Or.inl h1), List.append_nil]
      exact ⟨_, rfl⟩
    · by_cases h2 : col = "Name".data
      · rw [if_neg h1, if_pos h2, if_pos (Or.inr h2), List.append_nil]
        exact ⟨_, rfl⟩
      · rw [if_neg h1, if_neg h2, if_neg (by tauto)]
        unfold find_table_value
        rw [if_neg (fun hn => hn hname), hf]
        dsimp only
        exact ⟨_, rfl⟩

end PSGen

namespace PSGen

/-- The column fold of the row assembly accumulates exactly the spec's
missing entries for the processed columns. -/
theorem regenFold_spec (old : PsTable) (hname : "Name".data ∈ old.cols)
    (seed : Str) (idx : Int) (l : List Str) (hl : ∀ c ∈ l, c ∈ old.cols) :
    ∀ acc, ∃ nd, l.foldlM (regenStep old seed idx) acc = .ok (nd, acc.2 ++
      (if (old.rows.find? (fun r =>
          cellAt r (old.cols.indexOf "Name".data) == Cell.str seed)).isSome then []
       else (l.filter (fun c => c ≠ "Index".data ∧ c ≠ "Name".data)).map
         (fun c => (idx, seed, colPretty c, (none : Option Cell))))) := by
  induction l with
  | nil =>
    intro acc
    refine ⟨acc.1, ?_⟩
    simp [List.foldlM_nil, pure, Except.pure]
  | cons c t ih =>
    intro acc
    have hmem : c ∈ old.cols := hl c (List.mem_cons_self c t)
    have hl' : ∀ x ∈ t, x ∈ old.cols := fun x hx => hl x (List.mem_cons_of_mem c hx)
    cases hf : (old.rows.find? (fun r =>
        cellAt r (old.cols.indexOf "Name".data) == Cell.str seed)) with
    | some r =>
      obtain ⟨nd1, hstep⟩ := regenStep_spec old hname seed idx c hmem acc
      rw [hf] at hstep
      simp only [Option.isSome_some, if_true, List.append_nil] at hstep
      obtain ⟨nd2, hfold⟩ := ih hl' (nd1, acc.2)
      rw [hf] at hfold
      simp only [Option.isSome_some, if_true, List.append_nil] at hfold
      refine ⟨nd2, ?_⟩
      rw [List.foldlM_cons, hstep]
      simp only [hf, Option.isSome_some, if_true, List.append_nil]
      exact hfold
    | none =>
      obtain ⟨nd1, hstep⟩ := regenStep_spec old hname seed idx c hmem acc
      rw [hf] at hstep
      simp only [Option.isSome_none, Bool.false_eq_true, if_false] at hstep
      obtain ⟨nd2, hfold⟩ := ih hl' (nd1, acc.2 ++
        (if c = "Index".data ∨ c = "Name".data then []
         else [(idx, seed, colPretty c, (none : Option Cell))]))
      rw [hf] at hfold
      simp only [Option.isSome_none, Bool.false_eq_true, if_false] at hfold
      refine ⟨nd2, ?_⟩
      rw [List.foldlM_cons, hstep]
      refine hfold.trans ?_
      simp only [hf, Option.isSome_none, Bool.false_eq_true, if_false]
      rw [List.append_assoc]
      by_cases hc : c = "Index".data ∨ c = "Name".data
      · have hpc : ¬(c ≠ "Index".data ∧ c ≠ "Name".data) := by tauto
        simp [List.filter_cons, hpc, hc]
      · push_neg at hc
        simp [List.filter_cons, hc.1, hc.2]

/-- Regenerating one row yields exactly the spec's missing entries for the
seed. -/
theorem regenRow_spec (old : PsTable) (hname : "Name".data ∈ old.cols)
    (seed : Str) (idx : Int) :
    ∃ nd, regenRow old seed idx = .ok (nd,
      if (old.rows.find? (fun r =>
          cellAt r (old.cols.indexOf "Name".data) == Cell.str seed)).isSome then []
      else (old.cols.filter (fun c => c ≠ "Index".data ∧ c ≠ "Name".data)).map
        (fun c => (idx, seed, colPretty c, (none : Option Cell)))) := by
  obtain ⟨nd, h⟩ := regenFold_spec old hname seed idx old.cols (fun _ hx => hx) ([], [])
  exact ⟨nd, by rw [regenRow, h]; rfl⟩

end PSGen

namespace PSGen

/-- The regeneration loop accumulates exactly the spec's missing list. -/
theorem regenerate_spec (old : PsTable) (hname : "Name".data ∈ old.cols)
    (menu : List (Str × Int)) :
    ∀ acc, ∃ rows, menu.foldlM (regenAcc old) acc =
      .ok (rows, acc.2 ++ missingSpec old menu) := by
  induction menu with
  | nil =>
    intro acc
    refine ⟨acc.1, ?_⟩
    simp [List.foldlM_nil, missingSpec, pure, Except.pure]
  | cons si m ih =>
    intro acc
    obtain ⟨nd, hrow⟩ := regenRow_spec old hname si.1 si.2
    obtain ⟨rows, hfold⟩ := ih (acc.1 ++ [nd],
      acc.2 ++ (if (old.rows.find? (fun r =>
          cellAt r (old.cols.indexOf "Name".data) == Cell.str si.1)).isSome then []
        else (old.cols.filter (fun c => c ≠ "Index".data ∧ c ≠ "Name".data)).map
          (fun c => (si.2, si.1, colPretty c, (none : Option Cell)))))
    refine ⟨rows, ?_⟩
    rw [List.foldlM_cons]
    show (regenAcc old acc si >>= fun b => m.foldlM (regenAcc old) b) = _
    rw [show regenAcc old acc si = .ok (acc.1 ++ [nd],
      acc.2 ++ (if (old.rows.find? (fun r =>
          cellAt r (old.cols.indexOf "Name".data) == Cell.str si.1)).isSome then []
        else (old.cols.filter (fun c => c ≠ "Index".data ∧ c ≠ "Name".data)).map
          (fun c => (si.2, si.1, colPretty c, (none : Option Cell)))))
      from by rw [regenAcc, hrow]; rfl]
    refine hfold.trans ?_
    rw [List.append_assoc]
    rfl

end PSGen

namespace PSGen

/-- C8: for a table with a `Name` column, a seed occurring in that column
makes `find_table_value` return the first matching row's value for the
requested column with exit code 0; an absent seed makes it return the
estimation hook's value — which is always `None` — with exit code 1; and
the regeneration loop records exactly one missing entry per absent menu
seed and non-identity column, with estimated value `None`
(pstable.py:4,9; ps-generate.py:45-65). -/
theorem c8_regeneration_missing_list (old : PsTable)
    (hname : "Name".data ∈ old.cols) (seed col : Str)
    (menu : List (Str × Int)) :
    (∀ r, old.rows.find? (fun r =>
        cellAt r (old.cols.indexOf "Name".data) == Cell.str seed) = some r →
      col ∈ old.cols →
      find_table_value old seed col =
        .ok (some (cellAt r (old.cols.indexOf col)), 0)) ∧
    (old.rows.find? (fun r =>
        cellAt r (old.cols.indexOf "Name".data) == Cell.str seed) = none →
      find_table_value old seed col = .ok (estimate_value seed, 1) ∧
      estimate_value seed = none) ∧
    (∃ rows, regenerate old menu = .ok (rows, missingSpec old menu)) := by
  refine ⟨?_, ?_, ?_⟩
  · intro r hr hcol
    unfold find_table_value
    rw [if_neg (fun hn => hn hname), hr]
    dsimp only
    rw [if_pos hcol]
  · intro hr
    refine ⟨?_, rfl⟩
    unfold find_table_value
    rw [if_neg (fun hn => hn hname), hr]
  · obtain ⟨rows, h⟩ := regenerate_spec old hname menu ([], [])
    exact ⟨rows, by rw [regenerate, h]; rfl⟩

/-- Witness for C8 on a concrete table and menu. -/
theorem c8_witness :
    ∃ rows, regenerate (PsTable.mk ["Name".data, "prescale".data]
        [[Cell.str "L1_SingleMu22".data, Cell.int 5]])
        [("L1_SingleMu22".data, 0), ("L1_New".data, 1)] =
      .ok (rows, missingSpec (PsTable.mk ["Name".data, "prescale".data]
        [[Cell.str "L1_SingleMu22".data, Cell.int 5]])
        [("L1_SingleMu22".data, 0), ("L1_New".data, 1)]) :=
  (c8_regeneration_missing_list _ (by decide) "L1_SingleMu22".data
    "prescale".data _).2.2

end PSGen

namespace PSGen

/-- Reduction of a successful monadic bind in the `Except` embedding. -/
theorem bind_ok_red {α β : Type} (x : α) (f : α → Except PyErr β) :
    (Except.ok x >>= f : Except PyErr β) = f x := rfl

/-- Reduction of a failing monadic bind in the `Except` embedding. -/
theorem bind_err_red {α β : Type} (e : PyErr) (f : α → Except PyErr β) :
    (Except.error e >>= f : Except PyErr β) = .error e := rfl

/-- With the default `force_backup_seeds=None`, a single row is either
skipped or raises `TypeError`: no row can ever be classified. -/
theorem processRow_none (rows : List Row) (nIdx pIdx : Nat) (cp kz : Bool)
    (wm : Str) (row : Row) :
    processRow rows nIdx pIdx cp kz wm none row = .ok .skip ∨
    processRow rows nIdx pIdx cp kz wm none row = .error .typeError := by
  unfold processRow
  cases hc : cellAt row nIdx with
  | int z => exact Or.inl rfl
  | str seed =>
    dsimp only
    by_cases h1 : startsWithS seed "L1_".data = true
    · rw [if_neg (by simp [h1])]
      cases hp : cellAt row pIdx with
      | str s =>
        dsimp only [asPS]
        rw [bind_err_red]
        exact Or.inr rfl
      | int ps =>
        dsimp only [asPS]
        rw [bind_ok_red]
        by_cases hf1 : wm = "unprescaled".data ∧ ps ≠ 1
        · rw [if_pos hf1]; exact Or.inl rfl
        · rw [if_neg hf1]
          by_cases hf2 : wm = "prescaled".data ∧ ps ≤ 1
          · rw [if_pos hf2]; exact Or.inl rfl
          · rw [if_neg hf2]
            by_cases hf3 : ¬kz ∧ ps = 0
            · rw [if_pos hf3]; exact Or.inl rfl
            · rw [if_neg hf3]; exact Or.inr rfl
    · rw [if_pos (by simp [h1])]
      exact Or.inl rfl

/-- A row that passes the grammar, write-mode and zero-prescale filters
reaches the force-list membership test, which raises on `None`. -/
theorem processRow_none_qual (rows : List Row) (nIdx pIdx : Nat)
    (cp kz : Bool) (wm : Str) (row : Row) (seed : Str) (ps : Int)
    (hname : cellAt row nIdx = .str seed)
    (hL1 : startsWithS seed "L1_".data = true)
    (hps : cellAt row pIdx = .int ps)
    (hf1 : ¬(wm = "unprescaled".data ∧ ps ≠ 1))
    (hf2 : ¬(wm = "prescaled".data ∧ ps ≤ 1))
    (hf3 : ¬(¬kz ∧ ps = 0)) :
    processRow rows nIdx pIdx cp kz wm none row = .error .typeError := by
  unfold processRow
  rw [hname]
  dsimp only
  rw [if_neg (by simp [hL1]), hps]
  dsimp only [asPS]
  rw [bind_ok_red, if_neg hf1, if_neg hf2, if_neg hf3]

/-- If any row of the list raises under `force=None`, the whole fold
raises (all other rows only skip). -/
theorem sepGo_none_err (rows : List Row) (nIdx pIdx : Nat) (cp kz : Bool)
    (wm : Str) :
    ∀ (l : List Row) (acc : List Row × List Row × List InfoRow),
    (∃ r ∈ l, processRow rows nIdx pIdx cp kz wm none r = .error .typeError) →
    sepGo rows nIdx pIdx cp kz wm none acc l = .error .typeError := by
  intro l
  induction l with
  | nil =>
    rintro acc ⟨r, hr, -⟩
    exact absurd hr (List.not_mem_nil r)
  | cons a t ih =>
    rintro ⟨s, b, i⟩ ⟨r, hr, herr⟩
    rcases processRow_none rows nIdx pIdx cp kz wm a with h | h
    · have hstep : sepGo rows nIdx pIdx cp kz wm none (s, b, i) (a :: t) =
          sepGo rows nIdx pIdx cp kz wm none (s, b, i) t := by
        conv_lhs => rw [sepGo]
        rw [h, bind_ok_red]
      rw [hstep]
      apply ih
      rcases List.mem_cons.mp hr with rfl | hmem
      · rw [herr] at h
        exact absurd h (by simp)
      · exact ⟨r, hmem, herr⟩
    · show (processRow rows nIdx pIdx cp kz wm none a >>= fun d =>
          match d with
          | .skip => sepGo rows nIdx pIdx cp kz wm none (s, b, i) t
          | .signal => sepGo rows nIdx pIdx cp kz wm none (s ++ [a], b, i) t
          | .backup e => sepGo rows nIdx pIdx cp kz wm none
              (s, b ++ [a], i ++ [e]) t) = .error .typeError
      rw [h, bind_err_red]

/-- C9: with the default `force_backup_seeds=None`, any table containing at
least one row whose seed is a string starting with `L1_` and which passes
the write-mode and zero-prescale filters makes
`separate_signal_and_backup_seeds` raise a `TypeError`, because membership
of the seed is tested on `None` (remove_backup_seeds.py:169,211). -/
theorem c9_force_none_raises (cols : List Str) (rows : List Row)
    (cp kz : Bool) (wm : Str) (nIdx pIdx : Nat) (row : Row) (seed : Str)
    (ps : Int)
    (hwm : ¬ (allowedModes.map (fun m => decide (m = wm))).count true ≠ 1)
    (hn : get_name_col_idx cols rows = .ok nIdx)
    (hp : get_PS_col_idx cols = .ok pIdx)
    (hrow : row ∈ rows)
    (hname : cellAt row nIdx = .str seed)
    (hL1 : startsWithS seed "L1_".data = true)
    (hps : cellAt row pIdx = .int ps)
    (hf1 : ¬(wm = "unprescaled".data ∧ ps ≠ 1))
    (hf2 : ¬(wm = "prescaled".data ∧ ps ≤ 1))
    (hf3 : ¬(¬kz ∧ ps = 0)) :
    separate_signal_and_backup_seeds cols rows cp kz wm none =
      .error .typeError := by
  unfold separate_signal_and_backup_seeds
  rw [if_neg hwm, hn, bind_ok_red, hp, bind_ok_red]
  exact sepGo_none_err rows nIdx pIdx cp kz wm rows ([], [], [])
    ⟨row, hrow, processRow_none_qual rows nIdx pIdx cp kz wm row seed ps
      hname hL1 hps hf1 hf2 hf3⟩

/-- Witness for C9 on a concrete one-row table. -/
theorem c9_witness :
    separate_signal_and_backup_seeds ["Name".data, "PS".data]
      [[Cell.str "L1_A".data, Cell.int 1]] false false "inclusive".data none =
      .error .typeError :=
  c9_force_none_raises ["Name".data, "PS".data]
    [[Cell.str "L1_A".data, Cell.int 1]] false false "inclusive".data 0 1
    [Cell.str "L1_A".data, Cell.int 1] "L1_A".data 1 (by decide) (by decide)
    (by decide) (by decide) (by decide) (by decide) (by decide) (by decide)
    (by decide) (by decide)

end PSGen

namespace PSGen

/-- The accumulator flag of the inner criterion loop ends `true` exactly
when it started `true` or some criterion in the list fires on the other
seed (a string with an integer prescale). -/
theorem critLoop_char (seed : Str) (ps : Int) (oc opc : Cell) (cp kz : Bool) :
    ∀ (cs : List CritFun) (st st' : Bool × List Str × List Str),
    critLoop seed ps oc opc cp kz st cs = .ok st' →
    (st'.1 = true ↔ st.1 = true ∨ ∃ o op, oc = Cell.str o ∧
      asPS opc = .ok op ∧ ∃ c ∈ cs, ∃ i cn,
        c seed ps o op kz cp false = .ok (true, i, cn)) := by
  intro cs
  induction cs with
  | nil =>
    intro st st' h
    simp only [critLoop] at h
    rcases h with ⟨⟩
    constructor
    · exact Or.inl
    · rintro (hst | ⟨o, op, ho, hop, c', hc', -⟩)
      · exact hst
      · exact absurd hc' (List.not_mem_nil c')
  | cons c cs ih =>
    intro st st' h
    cases oc with
    | int z =>
      simp only [critLoop] at h
      have hiff := ih st st' h
      rw [hiff]
      constructor
      · rintro (hst | ⟨o, op, ho, -⟩)
        · exact Or.inl hst
        · exact absurd ho (by simp)
      · rintro (hst | ⟨o, op, ho, -⟩)
        · exact Or.inl hst
        · exact absurd ho (by simp)
    | str o =>
      simp only [critLoop] at h
      cases hop : asPS opc with
      | error e =>
        rw [hop, bind_err_red] at h
        cases h
      | ok op =>
        rw [hop, bind_ok_red] at h
        cases hc : c seed ps o op kz cp false with
        | error e =>
          rw [hc, bind_err_red] at h
          cases h
        | ok v =>
          rcases v with ⟨b, i, cn⟩
          rw [hc, bind_ok_red] at h
          dsimp only at h
          cases b with
          | true =>
            rw [if_pos rfl] at h
            have hiff := ih _ st' h
            have hst' : st'.1 = true := hiff.mpr (Or.inl rfl)
            rw [hst']
            constructor
            · intro _
              exact Or.inr ⟨o, op, rfl, rfl, c, List.mem_cons_self c cs, i, cn, hc⟩
            · intro _
              rfl
          | false =>
            rw [if_neg (by simp)] at h
            have hiff := ih st st' h
            rw [hiff]
            constructor
            · rintro (hst | ⟨o', op', ho', hop', c', hc'm, i', cn', hcc⟩)
              · exact Or.inl hst
              · rw [hop] at hop'
                exact Or.inr ⟨o', op', ho', hop', c',
                  List.mem_cons_of_mem c hc'm, i', cn', hcc⟩
            · rintro (hst | ⟨o', op', ho', hop', c', hc'm, i', cn', hcc⟩)
              · exact Or.inl hst
              · rcases List.mem_cons.mp hc'm with rfl | hmem
                · rcases ho' with ⟨⟩
                  rcases hop' with ⟨⟩
                  rw [hc] at hcc
                  rcases hcc with ⟨⟩
                · exact Or.inr ⟨o', op', ho', hop.trans hop', c', hmem, i', cn', hcc⟩

/-- The flag of the outer loop of `has_signal_seed` ends `true` exactly when
it started `true` or some criterion fires against some
`(otherseed, otherprescale)` pair. -/
theorem hssGo_char (seed : Str) (ps : Int) (cp kz : Bool) :
    ∀ (pairs : List (Cell × Cell)) (st st' : Bool × List Str × List Str),
    hssGo seed ps cp kz st pairs = .ok st' →
    (st'.1 = true ↔ st.1 = true ∨ ∃ p ∈ pairs, ∃ o op, p.1 = Cell.str o ∧
      asPS p.2 = .ok op ∧ ∃ c ∈ criterionFunctions, ∃ i cn,
        c seed ps o op kz cp false = .ok (true, i, cn)) := by
  intro pairs
  induction pairs with
  | nil =>
    intro st st' h
    simp only [hssGo] at h
    rcases h with ⟨⟩
    constructor
    · exact Or.inl
    · rintro (hst | ⟨p, hp, -⟩)
      · exact hst
      · exact absurd hp (List.not_mem_nil p)
  | cons p rest ih =>
    rcases p with ⟨oc, opc⟩
    intro st st' h
    simp only [hssGo] at h
    cases hcl : critLoop seed ps oc opc cp kz st criterionFunctions with
    | error e =>
      rw [hcl, bind_err_red] at h
      cases h
    | ok st1 =>
      rw [hcl, bind_ok_red] at h
      have h1 := critLoop_char seed ps oc opc cp kz criterionFunctions st st1 hcl
      have h2 := ih st1 st' h
      rw [h2, h1]
      constructor
      · rintro ((hst | hB) | ⟨q, hq, hx⟩)
        · exact Or.inl hst
        · exact Or.inr ⟨(oc, opc), List.mem_cons_self _ rest, hB⟩
        · exact Or.inr ⟨q, List.mem_cons_of_mem _ hq, hx⟩
      · rintro (hst | ⟨q, hq, hx⟩)
        · exact Or.inl (Or.inl hst)
        · rcases List.mem_cons.mp hq with rfl | hmem
          · exact Or.inl (Or.inr hx)
          · exact Or.inr ⟨q, hmem, hx⟩

/-- `has_signal_seed` reports `true` exactly when some criterion fires
against some pair of the zipped seed and prescale columns. -/
theorem has_signal_seed_char (seed : Str) (ps : Int) (allSeeds allPS : List Cell)
    (cp kz : Bool) (b : Bool) (ids crits : List Str)
    (h : has_signal_seed seed ps allSeeds allPS cp kz = .ok (b, ids, crits)) :
    (b = true ↔ ∃ p ∈ allSeeds.zip allPS, ∃ o op, p.1 = Cell.str o ∧
      asPS p.2 = .ok op ∧ ∃ c ∈ criterionFunctions, ∃ i cn,
        c seed ps o op kz cp false = .ok (true, i, cn)) := by
  have hiff := hssGo_char seed ps cp kz (allSeeds.zip allPS) (false, [], [])
    (b, ids, crits) h
  constructor
  · intro hb
    rcases hiff.mp hb with hft | hx
    · exact absurd hft (by simp)
    · exact hx
  · intro hx
    exact hiff.mpr (Or.inr hx)

end PSGen

namespace PSGen

/-- A qualifying row whose seed is on the force list is classified backup
with the sentinel provenance entry, bypassing all criteria. -/
theorem processRow_qual_force (rows : List Row) (nIdx pIdx : Nat)
    (cp kz : Bool) (wm : Str) (fl : List Str) (row : Row) (seed : Str) (ps : Int)
    (hname : cellAt row nIdx = .str seed)
    (hL1 : startsWithS seed "L1_".data = true)
    (hps : cellAt row pIdx = .int ps)
    (hf1 : ¬(wm = "unprescaled".data ∧ ps ≠ 1))
    (hf2 : ¬(wm = "prescaled".data ∧ ps ≤ 1))
    (hf3 : ¬(¬kz ∧ ps = 0))
    (hin : seed ∈ fl) :
    processRow rows nIdx pIdx cp kz wm (some fl) row =
      .ok (.backup (seed, ps, "[NaN - backup seed set manually]".data, [])) := by
  unfold processRow
  rw [hname]
  dsimp only
  rw [if_neg (by simp [hL1]), hps]
  dsimp only [asPS]
  rw [bind_ok_red, if_neg hf1, if_neg hf2, if_neg hf3]
  rw [if_pos hin]

/-- A qualifying row whose seed is not on the force list is classified by
the flag of `has_signal_seed`: backup when some criterion fired, signal
otherwise. -/
theorem processRow_qual_eval (rows : List Row) (nIdx pIdx : Nat)
    (cp kz : Bool) (wm : Str) (fl : List Str) (row : Row) (seed : Str) (ps : Int)
    (hname : cellAt row nIdx = .str seed)
    (hL1 : startsWithS seed "L1_".data = true)
    (hps : cellAt row pIdx = .int ps)
    (hf1 : ¬(wm = "unprescaled".data ∧ ps ≠ 1))
    (hf2 : ¬(wm = "prescaled".data ∧ ps ≤ 1))
    (hf3 : ¬(¬kz ∧ ps = 0))
    (hnin : seed ∉ fl) (d : RowDecision)
    (h : processRow rows nIdx pIdx cp kz wm (some fl) row = .ok d) :
    ∃ b ids crits fmt,
      has_signal_seed seed ps (rows.map fun r => cellAt r nIdx)
        (rows.map fun r => cellAt r pIdx) cp kz = .ok (b, ids, crits) ∧
      d = (if b = true then
            RowDecision.backup (seed, ps, joinComma fmt, joinComma crits)
          else .signal) := by
  unfold processRow at h
  rw [hname] at h
  dsimp only at h
  rw [if_neg (by simp [hL1]), hps] at h
  dsimp only [asPS] at h
  rw [bind_ok_red, if_neg hf1, if_neg hf2, if_neg hf3] at h
  rw [if_neg hnin] at h
  cases hss : has_signal_seed seed ps (rows.map fun r => cellAt r nIdx)
      (rows.map fun r => cellAt r pIdx) cp kz with
  | error e =>
    rw [hss, bind_err_red] at h
    cases h
  | ok v =>
    rcases v with ⟨b, ids, crits⟩
    rw [hss, bind_ok_red] at h
    dsimp only at h
    cases hm : ids.mapM (fun s => do
        let v ← lookupPS rows nIdx pIdx s
        pure (s ++ " (PS: ".data ++ intStr v ++ [')'])) with
    | error e =>
      rw [hm, bind_err_red] at h
      cases h
    | ok fmt =>
      rw [hm, bind_ok_red] at h
      refine ⟨b, ids, crits, fmt, rfl, ?_⟩
      cases b with
      | true =>
        rw [if_pos rfl] at h ⊢
        rcases h with ⟨⟩
        rfl
      | false =>
        rw [if_neg (by simp)] at h ⊢
        rcases h with ⟨⟩
        rfl

end PSGen

namespace PSGen

/-- The classification fold only appends to its accumulator. -/
theorem sepGo_prefix (rows : List Row) (nIdx pIdx : Nat) (cp kz : Bool)
    (wm : Str) (force : Option (List Str)) :
    ∀ (l : List Row) (acc : List Row × List Row × List InfoRow)
      (out : List Row × List Row × List InfoRow),
    sepGo rows nIdx pIdx cp kz wm force acc l = .ok out →
    ∃ s' b' i', out = (acc.1 ++ s', acc.2.1 ++ b', acc.2.2 ++ i') := by
  intro l
  induction l with
  | nil =>
    rintro ⟨s, b, i⟩ out h
    simp only [sepGo] at h
    rcases h with ⟨⟩
    exact ⟨[], [], [], by simp⟩
  | cons a t ih =>
    rintro ⟨s, b, i⟩ out h
    simp only [sepGo] at h
    cases hd : processRow rows nIdx pIdx cp kz wm force a with
    | error e =>
      rw [hd, bind_err_red] at h
      cases h
    | ok d =>
      rw [hd, bind_ok_red] at h
      cases d with
      | skip => exact ih (s, b, i) out h
      | signal =>
        obtain ⟨s', b', i', hout⟩ := ih (s ++ [a], b, i) out h
        exact ⟨[a] ++ s', b', i', by simpa [List.append_assoc] using hout⟩
      | backup e =>
        obtain ⟨s', b', i', hout⟩ := ih (s, b ++ [a], i ++ [e]) out h
        exact ⟨s', [a] ++ b', [e] ++ i', by simpa [List.append_assoc] using hout⟩

/-- If the classification fold succeeds, every processed row got a
successful decision, and that decision places it in the corresponding
output partition. -/
theorem sepGo_mem (rows : List Row) (nIdx pIdx : Nat) (cp kz : Bool)
    (wm : Str) (force : Option (List Str)) :
    ∀ (l : List Row) (acc : List Row × List Row × List InfoRow)
      (out : List Row × List Row × List InfoRow),
    sepGo rows nIdx pIdx cp kz wm force acc l = .ok out →
    ∀ r ∈ l, ∃ d, processRow rows nIdx pIdx cp kz wm force r = .ok d ∧
      (d = .signal → r ∈ out.1) ∧
      (∀ e, d = .backup e → r ∈ out.2.1 ∧ e ∈ out.2.2) := by
  intro l
  induction l with
  | nil =>
    rintro acc out h r hr
    exact absurd hr (List.not_mem_nil r)
  | cons a t ih =>
    rintro ⟨s, b, i⟩ out h r hr
    simp only [sepGo] at h
    cases hd : processRow rows nIdx pIdx cp kz wm force a with
    | error e =>
      rw [hd, bind_err_red] at h
      cases h
    | ok d =>
      rw [hd, bind_ok_red] at h
      rcases List.mem_cons.mp hr with rfl | hmem
      · refine ⟨d, hd, ?_, ?_⟩
        · rintro rfl
          obtain ⟨s', b', i', hout⟩ := sepGo_prefix rows nIdx pIdx cp kz wm
            force t (s ++ [r], b, i) out h
          rw [hout]
          simp
        · rintro e rfl
          obtain ⟨s', b', i', hout⟩ := sepGo_prefix rows nIdx pIdx cp kz wm
            force t (s, b ++ [r], i ++ [e]) out h
          rw [hout]
          constructor <;> simp
      · cases d with
        | skip => exact ih (s, b, i) out h r hmem
        | signal => exact ih (s ++ [a], b, i) out h r hmem
        | backup e => exact ih (s, b ++ [a], i ++ [e]) out h r hmem

/-- Every member of an output partition either was already in the
accumulator or comes from a row with the corresponding decision. -/
theorem sepGo_src (rows : List Row) (nIdx pIdx : Nat) (cp kz : Bool)
    (wm : Str) (force : Option (List Str)) :
    ∀ (l : List Row) (acc : List Row × List Row × List InfoRow)
      (out : List Row × List Row × List InfoRow),
    sepGo rows nIdx pIdx cp kz wm force acc l = .ok out →
    (∀ r ∈ out.2.1, r ∈ acc.2.1 ∨ ∃ e, r ∈ l ∧
      processRow rows nIdx pIdx cp kz wm force r = .ok (.backup e)) ∧
    (∀ r ∈ out.1, r ∈ acc.1 ∨ (r ∈ l ∧
      processRow rows nIdx pIdx cp kz wm force r = .ok .signal)) := by
  intro l
  induction l with
  | nil =>
    rintro ⟨s, b, i⟩ out h
    simp only [sepGo] at h
    rcases h with ⟨⟩
    exact ⟨fun r hr => Or.inl hr, fun r hr => Or.inl hr⟩
  | cons a t ih =>
    rintro ⟨s, b, i⟩ out h
    simp only [sepGo] at h
    cases hd : processRow rows nIdx pIdx cp kz wm force a with
    | error e =>
      rw [hd, bind_err_red] at h
      cases h
    | ok d =>
      rw [hd, bind_ok_red] at h
      cases d with
      | skip =>
        obtain ⟨hb, hs⟩ := ih (s, b, i) out h
        refine ⟨fun r hr => ?_, fun r hr => ?_⟩
        · rcases hb r hr with hacc | ⟨e, hrl, hpr⟩
          · exact Or.inl hacc
          · exact Or.inr ⟨e, List.mem_cons_of_mem a hrl, hpr⟩
        · rcases hs r hr with hacc | ⟨hrl, hpr⟩
          · exact Or.inl hacc
          · exact Or.inr ⟨List.mem_cons_of_mem a hrl, hpr⟩
      | signal =>
        obtain ⟨hb, hs⟩ := ih (s ++ [a], b, i) out h
        refine ⟨fun r hr => ?_, fun r hr => ?_⟩
        · rcases hb r hr with hacc | ⟨e, hrl, hpr⟩
          · exact Or.inl hacc
          · exact Or.inr ⟨e, List.mem_cons_of_mem a hrl, hpr⟩
        · rcases hs r hr with hacc | ⟨hrl, hpr⟩
          · rcases List.mem_append.mp hacc with hacc' | hacc'
            · exact Or.inl hacc'
            · rcases List.mem_singleton.mp hacc' with rfl
              exact Or.inr ⟨List.mem_cons_self r t, hd⟩
          · exact Or.inr ⟨List.mem_cons_of_mem a hrl, hpr⟩
      | backup e0 =>
        obtain ⟨hb, hs⟩ := ih (s, b ++ [a], i ++ [e0]) out h
        refine ⟨fun r hr => ?_, fun r hr => ?_⟩
        · rcases hb r hr with hacc | ⟨e, hrl, hpr⟩
          · rcases List.mem_append.mp hacc with hacc' | hacc'
            · exact Or.inl hacc'
            · rcases List.mem_singleton.mp hacc' with rfl
              exact Or.inr ⟨e0, List.mem_cons_self r t, hd⟩
          · exact Or.inr ⟨e, List.mem_cons_of_mem a hrl, hpr⟩
        · rcases hs r hr with hacc | ⟨hrl, hpr⟩
          · exact Or.inl hacc
          · exact Or.inr ⟨List.mem_cons_of_mem a hrl, hpr⟩

end PSGen

namespace PSGen

/-- C1: a row whose seed is a string starting with `L1_` and which passes
the write-mode and zero-prescale filters is placed in the backup partition
iff its seed is on the force list or some criterion returns a backup
verdict against some row of the table; otherwise it is placed in the
signal partition; and forced seeds receive the sentinel
`[NaN - backup seed set manually]` provenance entry
(remove_backup_seeds.py:192-241,260-298). -/
theorem c1_backup_iff (cols : List Str) (rows : List Row) (cp kz : Bool)
    (wm : Str) (fl : List Str) (sig bak : List Row) (info : List InfoRow)
    (nIdx pIdx : Nat) (row : Row) (seed : Str) (ps : Int)
    (hsep : separate_signal_and_backup_seeds cols rows cp kz wm (some fl) =
      .ok (sig, bak, info))
    (hn : get_name_col_idx cols rows = .ok nIdx)
    (hp : get_PS_col_idx cols = .ok pIdx)
    (hrow : row ∈ rows)
    (hname : cellAt row nIdx = .str seed)
    (hL1 : startsWithS seed "L1_".data = true)
    (hps : cellAt row pIdx = .int ps)
    (hf1 : ¬(wm = "unprescaled".data ∧ ps ≠ 1))
    (hf2 : ¬(wm = "prescaled".data ∧ ps ≤ 1))
    (hf3 : ¬(¬kz ∧ ps = 0)) :
    (row ∈ bak ↔ (seed ∈ fl ∨
      ∃ p ∈ (rows.map fun r => cellAt r nIdx).zip (rows.map fun r => cellAt r pIdx),
        ∃ o op, p.1 = Cell.str o ∧ asPS p.2 = .ok op ∧
          ∃ c ∈ criterionFunctions, ∃ i cn,
            c seed ps o op kz cp false = .ok (true, i, cn))) ∧
    (row ∈ sig ↔ ¬(seed ∈ fl ∨
      ∃ p ∈ (rows.map fun r => cellAt r nIdx).zip (rows.map fun r => cellAt r pIdx),
        ∃ o op, p.1 = Cell.str o ∧ asPS p.2 = .ok op ∧
          ∃ c ∈ criterionFunctions, ∃ i cn,
            c seed ps o op kz cp false = .ok (true, i, cn))) ∧
    (seed ∈ fl →
      (seed, ps, "[NaN - backup seed set manually]".data, ([] : Str)) ∈ info) := by
  unfold separate_signal_and_backup_seeds at hsep
  by_cases hwm : (allowedModes.map (fun m => decide (m = wm))).count true ≠ 1
  · rw [if_pos hwm] at hsep
    cases hsep
  · rw [if_neg hwm, hn, bind_ok_red, hp, bind_ok_red] at hsep
    obtain ⟨d, hd, hdsig, hdbak⟩ := sepGo_mem rows nIdx pIdx cp kz wm (some fl)
      rows ([], [], []) (sig, bak, info) hsep row hrow
    obtain ⟨hbsrc, hssrc⟩ := sepGo_src rows nIdx pIdx cp kz wm (some fl)
      rows ([], [], []) (sig, bak, info) hsep
    by_cases hin : seed ∈ fl
    · have hforce := processRow_qual_force rows nIdx pIdx cp kz wm fl row seed ps
        hname hL1 hps hf1 hf2 hf3 hin
      rw [hd] at hforce
      rcases hforce with ⟨⟩
      have hrbak := hdbak _ rfl
      refine ⟨iff_of_true hrbak.1 (Or.inl hin), ?_, fun _ => hrbak.2⟩
      apply iff_of_false
      · intro hrs
        rcases hssrc row hrs with hacc | ⟨-, hpr⟩
        · exact absurd hacc (List.not_mem_nil row)
        · rw [hd] at hpr
          exact absurd hpr (by simp)
      · exact not_not_intro (Or.inl hin)
    · obtain ⟨b, ids, crits, fmt, hss, hdv⟩ := processRow_qual_eval rows nIdx
        pIdx cp kz wm fl row seed ps hname hL1 hps hf1 hf2 hf3 hin d hd
      have hchar := has_signal_seed_char seed ps _ _ cp kz b ids crits hss
      cases b with
      | true =>
        rw [if_pos rfl] at hdv
        subst hdv
        have hrbak := hdbak _ rfl
        have hcond := hchar.mp rfl
        refine ⟨iff_of_true hrbak.1 (Or.inr hcond), ?_, fun hinf => absurd hinf hin⟩
        apply iff_of_false
        · intro hrs
          rcases hssrc row hrs with hacc | ⟨-, hpr⟩
          · exact absurd hacc (List.not_mem_nil row)
          · rw [hd] at hpr
            exact absurd hpr (by simp)
        · exact not_not_intro (Or.inr hcond)
      | false =>
        rw [if_neg (by simp)] at hdv
        subst hdv
        have hrsig := hdsig rfl
        have hncond : ¬(seed ∈ fl ∨
            ∃ p ∈ (rows.map fun r => cellAt r nIdx).zip (rows.map fun r => cellAt r pIdx),
              ∃ o op, p.1 = Cell.str o ∧ asPS p.2 = .ok op ∧
                ∃ c ∈ criterionFunctions, ∃ i cn,
                  c seed ps o op kz cp false = .ok (true, i, cn)) := by
          rintro (hmem | hx)
          · exact hin hmem
          · exact absurd (hchar.mpr hx) (by simp)
        refine ⟨?_, iff_of_true hrsig hncond, fun hinf => absurd hinf hin⟩
        apply iff_of_false
        · intro hrb
          rcases hbsrc row hrb with hacc | ⟨e, -, hpr⟩
          · exact absurd hacc (List.not_mem_nil row)
          · rw [hd] at hpr
            exact absurd hpr (by simp)
        · exact hncond

/-- Witness for C1 on a concrete one-row table with a forced seed. -/
theorem c1_witness :
    (([Cell.str "L1_A".data, Cell.int 1] : Row) ∈
      ([[Cell.str "L1_A".data, Cell.int 1]] : List Row)) ∧
    (("L1_A".data, (1 : Int), "[NaN - backup seed set manually]".data,
      ([] : Str)) ∈
      [("L1_A".data, (1 : Int), "[NaN - backup seed set manually]".data,
        ([] : Str))]) := by
  have h := c1_backup_iff ["Name".data, "PS".data]
    [[Cell.str "L1_A".data, Cell.int 1]] false false "inclusive".data
    ["L1_A".data] [] [[Cell.str "L1_A".data, Cell.int 1]]
    [("L1_A".data, (1 : Int), "[NaN - backup seed set manually]".data,
      ([] : Str))] 0 1
    [Cell.str "L1_A".data, Cell.int 1] "L1_A".data 1
    (by decide) (by decide) (by decide) (by decide) (by decide) (by decide)
    (by decide) (by decide) (by decide) (by decide)
  exact ⟨h.1.mpr (Or.inl (by decide)), h.2.2 (by decide)⟩

end PSGen
